import Mathlib

/-!
Verification of the proxy selection engine of `helpers/proxy-pool.mjs`
(catalog model, weighted country distribution, random / round-robin / sticky
selection strategies, session-token expansion, type/country fallback).

The JavaScript source is shallowly embedded:
* JS plain objects used as string-keyed maps (`this._rr`, catalog records,
  distributions) become association lists `List (String × α)` with
  property read `getProp` (first binding wins, as JS keys are unique) and
  property write `setAssoc`.
* JS numbers used as weights are modelled as rationals `ℚ`; `Math.random()`
  outputs are passed in as explicit oracle arguments `rc`/`ri` (one for the
  country pick, one for the index pick — at most one draw happens in each),
  with the range contract `0 ≤ r < 1` of `Math.random` as a hypothesis
  where it matters.
* JS `throw` becomes `Except.error`; the director's mutable `_rr`/`_sticky`
  state is passed explicitly and returned alongside the result.
* Possibly-null pool slots and possibly-missing `endpoint` fields are
  modelled with `Option`, mirroring the runtime null checks in `pickProxy`.
-/

namespace ProxyPool

/-- JS property read on an object modelled as an association list:
`o[k]`, `none` when the key is absent. -/
def getProp {α : Type} : List (String × α) → String → Option α
  | [], _ => none
  | (k, v) :: rest, key => if k = key then some v else getProp rest key

/-- JS property write `o[k] = v`: replaces the binding in place, or appends a
new binding when the key is absent (JS insertion order). -/
def setAssoc {α : Type} : List (String × α) → String → α → List (String × α)
  | [], key, v => [(key, v)]
  | (k, w) :: rest, key, v =>
      if k = key then (k, v) :: rest else (k, w) :: setAssoc rest key v

@[simp] theorem getProp_nil {α : Type} (key : String) :
    getProp ([] : List (String × α)) key = none := rfl

theorem getProp_cons {α : Type} (k : String) (v : α) (rest : List (String × α))
    (key : String) :
    getProp ((k, v) :: rest) key = if k = key then some v else getProp rest key := rfl

theorem getProp_setAssoc_self {α : Type} (l : List (String × α)) (k : String) (v : α) :
    getProp (setAssoc l k v) k = some v := by
  induction l with
  | nil => simp [setAssoc, getProp]
  | cons hd tl ih =>
      obtain ⟨k', v'⟩ := hd
      by_cases h : k' = k
      · simp [setAssoc, getProp, h]
      · simp [setAssoc, getProp, h, ih]

theorem getProp_setAssoc_ne {α : Type} (l : List (String × α)) (k k' : String) (v : α)
    (h : k' ≠ k) : getProp (setAssoc l k v) k' = getProp l k' := by
  have hk : k ≠ k' := Ne.symm h
  induction l with
  | nil => simp [setAssoc, getProp, hk]
  | cons hd tl ih =>
      obtain ⟨k₀, v₀⟩ := hd
      by_cases h0 : k₀ = k
      · subst h0
        simp [setAssoc, getProp, hk]
      · simp [setAssoc, getProp, h0, ih]

/-- `getProp l k = some v` means the binding `(k, v)` occurs in the list. -/
theorem getProp_mem {α : Type} {l : List (String × α)} {k : String} {v : α}
    (h : getProp l k = some v) : (k, v) ∈ l := by
  induction l with
  | nil => simp [getProp] at h
  | cons hd tl ih =>
      obtain ⟨k₀, v₀⟩ := hd
      by_cases h0 : k₀ = k
      · subst h0
        simp [getProp] at h
        simp [h]
      · simp [getProp, h0] at h
        exact List.mem_cons_of_mem _ (ih h)

/-- With unique keys (as in a JS object), membership determines `getProp`. -/
theorem getProp_of_mem {α : Type} {l : List (String × α)} {k : String} {v : α}
    (hmem : (k, v) ∈ l) (hnd : (l.map Prod.fst).Nodup) : getProp l k = some v := by
  induction l with
  | nil => simp at hmem
  | cons hd tl ih =>
      obtain ⟨k₀, v₀⟩ := hd
      simp only [List.map_cons, List.nodup_cons] at hnd
      rcases List.mem_cons.mp hmem with heq | htl
      · cases heq
        simp [getProp]
      · have hk : k₀ ≠ k := by
          intro h0
          exact hnd.1 (h0 ▸ (List.mem_map.mpr ⟨(k, v), htl, rfl⟩))
        simp [getProp, hk, ih htl hnd.2]

/-- A key present among the keys has a value under `getProp`. -/
theorem getProp_isSome_of_mem_keys {α : Type} {l : List (String × α)} {k : String}
    (h : k ∈ l.map Prod.fst) : ∃ v, getProp l k = some v := by
  induction l with
  | nil => simp at h
  | cons hd tl ih =>
      obtain ⟨k₀, v₀⟩ := hd
      by_cases h0 : k₀ = k
      · exact ⟨v₀, by simp [getProp, h0]⟩
      · simp only [List.map_cons, List.mem_cons] at h
        rcases h with h | h
        · exact absurd h.symm h0
        · obtain ⟨v, hv⟩ := ih h
          exact ⟨v, by simp [getProp, h0, hv]⟩

/-- JS truthiness filter for strings wrapped in `Option`: `undefined`/`null`
and the empty string are falsy. -/
def truthy : Option String → Option String
  | some s => if s = "" then none else some s
  | none => none

/-- JS `a || b` on (optional) strings. -/
def jsOrS (a b : Option String) : Option String :=
  match truthy a with
  | some s => some s
  | none => b

@[simp] theorem truthy_none : truthy none = none := rfl

@[simp] theorem truthy_some_empty : truthy (some "") = none := by
  simp [truthy]

theorem truthy_some_of_ne {s : String} (h : s ≠ "") : truthy (some s) = some s := by
  simp [truthy, h]

theorem jsOrS_of_truthy {a b : Option String} {s : String} (h : truthy a = some s) :
    jsOrS a b = some s := by
  simp [jsOrS, h]

theorem jsOrS_of_falsy {a : Option String} (b : Option String) (h : truthy a = none) :
    jsOrS a b = b := by
  simp [jsOrS, h]

/-! ### `clamp01` and `normalizeDistribution`
Source: `helpers/proxy-pool.mjs` lines 542 and 554-564.  A
`CountryDistribution` JS object is embedded as `List (String × ℚ)` in key
insertion order; `Object.keys` enumeration order is the list order. -/

/-- `function clamp01(n) { return Math.max(0, Math.min(1, Number(n) || 0)); }`
(the `Number(n) || 0` NaN-guard is vacuous over `ℚ`). -/
def clamp01 (n : ℚ) : ℚ := max 0 (min 1 n)

/-- `normalizeDistribution(dist)`: empty map to empty map; otherwise clamp
every weight to `[0,1]`, and divide by the sum of clamped weights, or fall
back to the uniform `1/N` when that sum is `≤ 0`. -/
def normalizeDistribution (dist : List (String × ℚ)) : List (String × ℚ) :=
  if dist.isEmpty then []
  else if (dist.map (fun kv => clamp01 kv.2)).sum ≤ 0 then
    dist.map (fun kv => (kv.1, 1 / (dist.length : ℚ)))
  else
    dist.map (fun kv => (kv.1, clamp01 kv.2 / (dist.map (fun kv => clamp01 kv.2)).sum))

theorem clamp01_nonneg (n : ℚ) : 0 ≤ clamp01 n := le_max_left 0 _

theorem clamp01_le_one (n : ℚ) : clamp01 n ≤ 1 :=
  max_le zero_le_one (min_le_left 1 n)

theorem clamp01_of_mem_unit {n : ℚ} (h0 : 0 ≤ n) (h1 : n ≤ 1) : clamp01 n = n := by
  simp [clamp01, min_eq_right h1, max_eq_right h0]

theorem sum_map_div (l : List ℚ) (c : ℚ) :
    (l.map (fun x => x / c)).sum = l.sum / c := by
  induction l with
  | nil => simp
  | cons hd tl ih => simp [ih, add_div]

/-! ### String primitives of the JS runtime

`toUpperCase` and `replaceAll` are embedded structurally over the character
list (ASCII-faithful, which covers all strings the module manipulates). -/

/-- JS `String.prototype.toUpperCase` (ASCII). -/
def jsToUpper (s : String) : String := ⟨s.data.map Char.toUpper⟩

/-- Does `pat` occur at the head of the character list? -/
def startsWithL : List Char → List Char → Bool
  | [], _ => true
  | _ :: _, [] => false
  | p :: ps, c :: cs => p = c && startsWithL ps cs

/-- ECMA-262 `GetSubstitution` for a plain-string pattern (no capture
groups, no named captures): scanning the replacement text, `$$` yields `$`,
`$&` the matched text, `$` + backquote (code 96) the part of the original
string before the match, `$` + quote (code 39) the part after it; every
other `$`-sequence (digits, `$<`, a trailing `$`) stays literal. -/
def substAux (matched pre post : List Char) : List Char → List Char
  | [] => []
  | c :: rest =>
      if c = '$' then
        match rest with
        | [] => ['$']
        | c2 :: rest2 =>
            if c2 = '$' then '$' :: substAux matched pre post rest2
            else if c2 = '&' then matched ++ substAux matched pre post rest2
            else if c2.toNat = 96 then pre ++ substAux matched pre post rest2
            else if c2.toNat = 39 then post ++ substAux matched pre post rest2
            else '$' :: c2 :: substAux matched pre post rest2
      else c :: substAux matched pre post rest

/-- Left-to-right, non-overlapping replacement of a (non-empty) pattern, as
JS `String.prototype.replaceAll` with a string pattern: each occurrence is
replaced by the `GetSubstitution`-processed replacement text, the matched
text being the pattern and the before/after contexts taken from the
original string.  `pre` accumulates the original text already scanned;
`fuel` is an upper bound on the characters still to be consumed (each step
consumes at least one). -/
def repAux (pat rep : List Char) : Nat → List Char → List Char → List Char
  | _, _, [] => []
  | 0, _, rest => rest
  | Nat.succ fuel, pre, c :: rest =>
      if startsWithL pat (c :: rest) then
        substAux pat pre (List.drop (pat.length - 1) rest) rep
          ++ repAux pat rep fuel (pre ++ pat) (List.drop (pat.length - 1) rest)
      else c :: repAux pat rep fuel (pre ++ [c]) rest

/-- JS `s.replaceAll(pat, rep)` for a plain-string pattern, including the
`GetSubstitution` processing of the replacement text. -/
def replaceAll (s pat rep : String) : String :=
  if pat = "" then s else ⟨repAux pat.data rep.data s.data.length [] s.data⟩

/-- Modelled from the spec: the spec's reading of the expansion — every
occurrence of the pattern replaced by the replacement text inserted
literally, with no `GetSubstitution` processing.  Kept only to compare the
program's semantics against the claim's wording. -/
def repLitAux (pat rep : List Char) : Nat → List Char → List Char
  | _, [] => []
  | 0, rest => rest
  | Nat.succ fuel, c :: rest =>
      if startsWithL pat (c :: rest) then
        rep ++ repLitAux pat rep fuel (List.drop (pat.length - 1) rest)
      else c :: repLitAux pat rep fuel rest

/-- Modelled from the spec: literal-insertion `replaceAll` (see
`repLitAux`). -/
def replaceAllLiteral (s pat rep : String) : String :=
  if pat = "" then s else ⟨repLitAux pat.data rep.data s.data.length s.data⟩

/-! ### Data model of `helpers/proxy-pool.mjs`

`ProxyConfig` is the endpoint shape (`@typedef ProxyConfig`, lines 495-502).
The optional `auth` field is not part of the typedef, but `sanitizeEntry`
(lines 659-676) stores a computed `auth` string on the endpoint, so stored
endpoints can carry it; we model the field to track where it flows. -/

structure ProxyConfig where
  protocol : String
  host : String
  port : Nat
  username : Option String := none
  password : Option String := none
  auth : Option String := none
deriving DecidableEq

/-- `@typedef ProviderEntry` (lines 504-513); `endpoint` is `Option` because
`pickProxy` guards at runtime against slots whose `endpoint` is missing. -/
structure ProviderEntry where
  provider : Option String := none
  notes : Option String := none
  endpoint : Option ProxyConfig := none
deriving DecidableEq

/-- A `country → type → entries` pool list; slots may be `null` in JS
(guarded by `pickProxy`), hence `Option`. -/
abbrev Pool := List (Option ProviderEntry)

abbrev CountryRec := List (String × Pool)

abbrev Catalog := List (String × CountryRec)

/-- One row of the sticky map: `{country, type, index}` (line 900). -/
structure StickyEntry where
  country : String
  type : String
  index : Nat
deriving DecidableEq

/-- The director's mutable selection state: `this._rr` (round-robin pointer
per `country:type` key, line 899) and `this._sticky` (line 901). -/
structure DirState where
  rr : List (String × Nat) := []
  sticky : List (String × StickyEntry) := []
deriving DecidableEq

/-- Immutable configuration of a `ProxyDirector` (constructor, lines
890-906); `catalog` doubles as `this._pools`. -/
structure Director where
  catalog : Catalog
  countryDistribution : List (String × ℚ) := []
  defaultType : String := "res_rotating"
  defaultStrategy : String := "random"

/-- `@typedef ProxySelectionOptions` (lines 849-855). -/
structure Selection where
  country : Option String := none
  type : Option String := none
  strategy : Option String := none
  sessionKey : Option String := none

/-- `@typedef ProxyPickMeta` (lines 857-867). -/
structure ProxyPickMeta where
  proxyConfig : ProxyConfig
  country : String
  type : String
  strategy : String
  provider : Option String
  notes : Option String
deriving DecidableEq

/-! ### Operations -/

/-- `applySessionToken(cfg, session)` (lines 600-610): empty session returns
the shallow copy `{ ...cfg }`; otherwise rebuilds the object from exactly
`protocol/host/port/username/password`, with `${session}` expanded in the
string fields (`rep` leaves non-strings — here `none` — alone). -/
def applySessionToken (cfg : ProxyConfig) (session : String) : ProxyConfig :=
  if session = "" then cfg
  else
    let rep := fun (v : String) => replaceAll v "$\x7bsession\x7d" session
    { protocol := cfg.protocol
      host := rep cfg.host
      port := cfg.port
      username := cfg.username.map rep
      password := cfg.password.map rep
      auth := none }

/-- `firstAvailableType(cRec)` (lines 869-875): first non-empty pool in the
fixed priority order, else the first populated key of the record (the final
`keys[0] || null` makes an empty-string key fall through to `null`). -/
def firstAvailableType (cRec : CountryRec) : Option String :=
  match ["res_rotating", "res_static", "dc_rotating", "dc_static"].find?
      (fun t => ((getProp cRec t).getD []).length ≠ 0) with
  | some t => some t
  | none => truthy ((cRec.find? (fun kv => kv.2.length ≠ 0)).map Prod.fst)

/-- Loop body of `weightedPick` (lines 576-580): subtract each (clamped)
weight from `r` until it drops to `≤ 0`; falling off the end yields the last
entry's key. -/
def wpGo : List (String × ℚ) → ℚ → Option String → Option String
  | [], _, last => last
  | (k, w) :: rest, r, last =>
      if r - max 0 w ≤ 0 then some k else wpGo rest (r - max 0 w) last

/-- `weightedPick(entries)` (lines 572-581) with the single `Math.random()`
draw passed in as `r0`. -/
def weightedPick (entries : List (String × ℚ)) (r0 : ℚ) : Option String :=
  let total := (entries.map (fun e => max 0 e.2)).sum
  if total ≤ 0 then entries.head?.map Prod.fst
  else wpGo entries (r0 * total) (entries.getLast?.map Prod.fst)

/-- `q.num * len / q.den`, i.e. `Math.floor(r * len)` computed structurally
(for `r ≥ 0`, which `Math.random()` guarantees). -/
def randIndex (r : ℚ) (len : Nat) : Nat := ((r.num * (len : ℤ)) / (r.den : ℤ)).toNat

/-- `ProxyDirector._pickCountry()` (lines 926-938); `rc` is the
`Math.random()` draw the call would consume. -/
def pickCountry (d : Director) (rc : ℚ) : Option String :=
  let countries := d.catalog.map Prod.fst
  if countries.isEmpty then none
  else
    let weighted := countries.map (fun c => (c, (getProp d.countryDistribution c).getD 0))
    if weighted.all (fun w => w.2 ≤ 0) then
      countries.get? (randIndex rc countries.length)
    else weightedPick weighted rc

/-- Country resolution of `pickProxy` (line 972):
`(sel.country || this._pickCountry() || Object.keys(this._pools)[0] || "").toUpperCase()`. -/
def resolveCountry (d : Director) (selCountry : Option String) (rc : ℚ) : String :=
  jsToUpper ((jsOrS selCountry (jsOrS (pickCountry d rc) ((d.catalog.map Prod.fst).head?))).getD "")

/-- `ProxyDirector._nextRR(key, len)` (lines 947-950): pre-increment of the
cursor (a missing cursor reads as `0`), stored back and returned. -/
def nextRR (st : DirState) (key : String) (len : Nat) : Nat × DirState :=
  let i := (((getProp st.rr key).getD 0) + 1) % len
  (i, { st with rr := setAssoc st.rr key i })

/-- The strategy dispatch of `pickProxy` (lines 991-1013), returning the
chosen index together with the updated director state; `ri` is the
`Math.random()` draw the branch would consume. -/
def chooseIndex (st : DirState) (strategy country poolType : String)
    (sessionKey : Option String) (ri : ℚ) (len : Nat) : Nat × DirState :=
  if strategy = "random" then (randIndex ri len, st)
  else if strategy = "roundRobin" then nextRR st (country ++ ":" ++ poolType) len
  else if strategy = "sticky" then
    let key := (truthy sessionKey).getD ""
    if key = "" then nextRR st (country ++ ":" ++ poolType) len
    else
      match getProp st.sticky key with
      | some ex =>
          if ex.country = country ∧ ex.type = poolType ∧ ex.index < len then (ex.index, st)
          else
            let i := randIndex ri len
            (i, { st with sticky := setAssoc st.sticky key ⟨country, poolType, i⟩ })
      | none =>
          let i := randIndex ri len
          (i, { st with sticky := setAssoc st.sticky key ⟨country, poolType, i⟩ })
  else (randIndex ri len, st)

/-- Tail of `pickProxy` (lines 1015-1032): the null-entry and
missing-endpoint guards, session-token expansion and assembly of the
returned `ProxyPickMeta`.  `ist` is the chosen index together with the
director state as the strategy dispatch left it. -/
def finishPick (pool : Pool) (country poolType strategy sessionKey : String)
    (ist : Nat × DirState) : Except String ProxyPickMeta × DirState :=
  match pool.get? ist.1 with
  | none => (.error "ProxyDirector: empty proxy slot.", ist.2)
  | some none => (.error "ProxyDirector: empty proxy slot.", ist.2)
  | some (some entry) =>
      match entry.endpoint with
      | none => (.error "ProxyDirector: missing endpoint.", ist.2)
      | some ep =>
          (.ok { proxyConfig := applySessionToken ep sessionKey
                 country := country
                 type := poolType
                 strategy := strategy
                 provider := entry.provider
                 notes := entry.notes }, ist.2)

/-- `ProxyDirector.pickProxy(sel)` (lines 971-1033).  Throws become
`Except.error`; the director state travels alongside, so a result `(r, st')`
says the call returned/threw `r` leaving the mutable state at `st'`.  The
JS `const` bindings (`country`, `desiredType`, `poolType`, `pool`,
`strategy`) are inlined. -/
def pickProxy (d : Director) (st : DirState) (sel : Selection) (rc ri : ℚ) :
    Except String ProxyPickMeta × DirState :=
  if resolveCountry d sel.country rc = "" then
    (.error "ProxyDirector.pickProxy: no countries available in catalog.", st)
  else
    match getProp d.catalog (resolveCountry d sel.country rc) with
    | none => (.error "ProxyDirector.pickProxy: no countries available in catalog.", st)
    | some cRec =>
        match (if ((getProp cRec ((truthy sel.type).getD d.defaultType)).getD []).length ≠ 0
               then some ((truthy sel.type).getD d.defaultType)
               else firstAvailableType cRec) with
        | none => (.error "ProxyDirector.pickProxy: no proxy types present.", st)
        | some poolType =>
            if ((getProp cRec poolType).getD []).length = 0 then
              (.error "ProxyDirector.pickProxy: empty pool.", st)
            else
              finishPick ((getProp cRec poolType).getD [])
                (resolveCountry d sel.country rc) poolType
                ((truthy sel.strategy).getD d.defaultStrategy)
                ((truthy sel.sessionKey).getD "")
                (chooseIndex st ((truthy sel.strategy).getD d.defaultStrategy)
                  (resolveCountry d sel.country rc) poolType sel.sessionKey ri
                  ((getProp cRec poolType).getD []).length)

/-- Successive `pickProxy` calls: the state after one call feeds the next. -/
def pickStep (d : Director) (sel : Selection) (rc ri : ℚ) (st : DirState) : DirState :=
  (pickProxy d st sel rc ri).2

/-- Observation helper: the meta returned by a call, when it did not throw. -/
def resultMeta (p : Except String ProxyPickMeta × DirState) : Option ProxyPickMeta :=
  match p.1 with
  | .ok m => some m
  | .error _ => none

/-- Observation helper: did the call throw? -/
def threw (p : Except String ProxyPickMeta × DirState) : Prop :=
  ∃ e, p.1 = .error e

/-! ### Basic facts about the selection machinery -/

/-- `Math.floor(r * len)` lands inside the pool whenever `r` is in the
range `[0, 1)` guaranteed for `Math.random()` and the pool is non-empty. -/
theorem randIndex_lt {r : ℚ} (len : Nat) (hr0 : 0 ≤ r) (hr1 : r < 1)
    (hlen : 0 < len) : randIndex r len < len := by
  have hden : (0 : ℤ) < (r.den : ℤ) := Int.natCast_pos.mpr r.pos
  have hnum0 : 0 ≤ r.num := Rat.num_nonneg.mpr hr0
  have hnumden : r.num < (r.den : ℤ) := by
    have hden' : (0 : ℚ) < (r.den : ℚ) := by exact_mod_cast r.pos
    have h1 : (r.num : ℚ) < (r.den : ℚ) :=
      (div_lt_one hden').mp (by rw [Rat.num_div_den]; exact hr1)
    exact_mod_cast h1
  have hmul : r.num * (len : ℤ) < (len : ℤ) * (r.den : ℤ) := by
    calc r.num * (len : ℤ) ≤ ((r.den : ℤ) - 1) * (len : ℤ) := by
          apply mul_le_mul_of_nonneg_right _ (by positivity)
          omega
      _ < (len : ℤ) * (r.den : ℤ) := by nlinarith
  have hdiv : r.num * (len : ℤ) / (r.den : ℤ) < (len : ℤ) :=
    Int.ediv_lt_of_lt_mul hden (by linarith [hmul])
  have hdiv0 : 0 ≤ r.num * (len : ℤ) / (r.den : ℤ) :=
    Int.ediv_nonneg (by positivity) (le_of_lt hden)
  unfold randIndex
  omega

theorem nextRR_fst (st : DirState) (key : String) (len : Nat) :
    (nextRR st key len).1 = (((getProp st.rr key).getD 0) + 1) % len := rfl

theorem nextRR_snd (st : DirState) (key : String) (len : Nat) :
    (nextRR st key len).2 =
      { st with rr := setAssoc st.rr key ((((getProp st.rr key).getD 0) + 1) % len) } := rfl

/-- Any strategy leaves the chosen index inside the pool (for the sticky
reuse branch this is the explicit `existing.index < pool.length` test). -/
theorem chooseIndex_fst_lt (st : DirState) (strategy country poolType : String)
    (sessionKey : Option String) {ri : ℚ} (len : Nat)
    (hr0 : 0 ≤ ri) (hr1 : ri < 1) (hlen : 0 < len) :
    (chooseIndex st strategy country poolType sessionKey ri len).1 < len := by
  unfold chooseIndex
  by_cases h1 : strategy = "random"
  · simpa [h1] using randIndex_lt len hr0 hr1 hlen
  · by_cases h2 : strategy = "roundRobin"
    · simpa [h1, h2, nextRR] using Nat.mod_lt _ hlen
    · by_cases h3 : strategy = "sticky"
      · simp only [h1, h2, h3, if_false, if_true]
        by_cases hk : (truthy sessionKey).getD "" = ""
        · simpa [hk, nextRR] using Nat.mod_lt _ hlen
        · simp only [hk, if_false]
          cases hex : getProp st.sticky ((truthy sessionKey).getD "") with
          | none => simpa using randIndex_lt len hr0 hr1 hlen
          | some ex =>
              by_cases hm : ex.country = country ∧ ex.type = poolType ∧ ex.index < len
              · simp [hex, hm]
              · simpa [hm] using randIndex_lt len hr0 hr1 hlen
      · simpa [h1, h2, h3] using randIndex_lt len hr0 hr1 hlen

/-- A round-robin `chooseIndex` is exactly `this._nextRR` on the
`country:type` cursor key. -/
theorem chooseIndex_roundRobin (st : DirState) (country poolType : String)
    (sessionKey : Option String) (ri : ℚ) (len : Nat) :
    chooseIndex st "roundRobin" country poolType sessionKey ri len =
      nextRR st (country ++ ":" ++ poolType) len := by
  simp [chooseIndex]

theorem chooseIndex_sticky_noKey (st : DirState) (country poolType : String)
    {sessionKey : Option String} (ri : ℚ) (len : Nat)
    (hk : truthy sessionKey = none) :
    chooseIndex st "sticky" country poolType sessionKey ri len =
      chooseIndex st "roundRobin" country poolType sessionKey ri len := by
  simp [chooseIndex, hk, nextRR]

/-- A pool slot is wellformed when it is a non-`null` entry carrying an
endpoint. -/
def slotOK : Option ProviderEntry → Bool
  | some e => e.endpoint.isSome
  | none => false

/-- Pool wellformedness: every slot is a non-`null` entry with an endpoint
(the shape the catalog builder guarantees). -/
def WFPool (pool : Pool) : Prop :=
  ∀ slot ∈ pool, slotOK slot = true

instance (pool : Pool) : Decidable (WFPool pool) :=
  inferInstanceAs (Decidable (∀ slot ∈ pool, slotOK slot = true))

theorem slotOK_elim {slot : Option ProviderEntry} (h : slotOK slot = true) :
    ∃ e ep, slot = some e ∧ e.endpoint = some ep := by
  cases slot with
  | none => simp [slotOK] at h
  | some e =>
      cases hep : e.endpoint with
      | none => rw [slotOK, hep] at h; simp at h
      | some ep => exact ⟨e, ep, rfl, hep⟩

/-- Once country, type and pool are pinned down, `pickProxy` is the strategy
dispatch followed by `finishPick` on its result. -/
theorem pickProxy_resolved
    {d : Director} (st : DirState) {sel : Selection} (rc : ℚ) {ri : ℚ}
    {C T : String} {cRec : CountryRec} {pool : Pool}
    (hres : resolveCountry d sel.country rc = C)
    (hC : C ≠ "")
    (hrec : getProp d.catalog C = some cRec)
    (hpt : (if ((getProp cRec ((truthy sel.type).getD d.defaultType)).getD []).length ≠ 0
            then some ((truthy sel.type).getD d.defaultType)
            else firstAvailableType cRec) = some T)
    (hpool : (getProp cRec T).getD [] = pool)
    (hne : pool ≠ []) :
    pickProxy d st sel rc ri =
      finishPick pool C T ((truthy sel.strategy).getD d.defaultStrategy)
        ((truthy sel.sessionKey).getD "")
        (chooseIndex st ((truthy sel.strategy).getD d.defaultStrategy) C T
          sel.sessionKey ri pool.length) := by
  have hlen : ¬ pool.length = 0 := by
    simpa [List.length_eq_zero] using hne
  simp only [pickProxy, hres, if_neg hC, hrec, hpt, hpool, if_neg hlen]

/-- On a wellformed pool and an in-range index, `finishPick` succeeds and
returns the session-expanded endpoint of the slot at that index. -/
theorem finishPick_wf {pool : Pool} (C T strategy skey : String)
    {i : Nat} (st' : DirState) (hwf : WFPool pool) (hi : i < pool.length) :
    ∃ e ep, pool.get? i = some (some e) ∧ e.endpoint = some ep ∧
      finishPick pool C T strategy skey (i, st') =
        (.ok { proxyConfig := applySessionToken ep skey
               country := C, type := T, strategy := strategy
               provider := e.provider, notes := e.notes }, st') := by
  have hslot : pool.get? i = some (pool.get ⟨i, hi⟩) := List.get?_eq_get hi
  have hmem : pool.get ⟨i, hi⟩ ∈ pool := List.get_mem pool i hi
  obtain ⟨e, ep, hse, hep⟩ := slotOK_elim (hwf _ hmem)
  refine ⟨e, ep, ?_, hep, ?_⟩
  · rw [hslot, hse]
  · simp only [finishPick, hslot, hse, hep]

/-- Inversion: a successful `finishPick` came from a non-null slot with an
endpoint, returned its session expansion and passed the state through. -/
theorem finishPick_ok {pool : Pool} {C T strategy skey : String}
    {ist : Nat × DirState} {m : ProxyPickMeta} {st' : DirState}
    (h : finishPick pool C T strategy skey ist = (.ok m, st')) :
    ∃ e ep, pool.get? ist.1 = some (some e) ∧ e.endpoint = some ep ∧ st' = ist.2 ∧
      m = { proxyConfig := applySessionToken ep skey
            country := C, type := T, strategy := strategy
            provider := e.provider, notes := e.notes } := by
  unfold finishPick at h
  cases hget : pool.get? ist.1 with
  | none => rw [hget] at h; simp at h
  | some slot =>
      rw [hget] at h
      cases slot with
      | none => simp at h
      | some e =>
          cases hep : e.endpoint with
          | none => simp [hep] at h
          | some ep =>
              simp only [hep, Prod.mk.injEq, Except.ok.injEq] at h
              exact ⟨e, ep, rfl, hep, h.2.symm, h.1.symm⟩

/-- Inversion: every successful `pickProxy` call factors through a resolved
country record, a resolved pool type, the strategy dispatch and
`finishPick`. -/
theorem pickProxy_ok_inv {d : Director} {st : DirState} {sel : Selection}
    {rc ri : ℚ} {m : ProxyPickMeta} {st' : DirState}
    (h : pickProxy d st sel rc ri = (.ok m, st')) :
    ∃ cRec pool T,
      resolveCountry d sel.country rc ≠ "" ∧
      getProp d.catalog (resolveCountry d sel.country rc) = some cRec ∧
      (if ((getProp cRec ((truthy sel.type).getD d.defaultType)).getD []).length ≠ 0
       then some ((truthy sel.type).getD d.defaultType)
       else firstAvailableType cRec) = some T ∧
      (getProp cRec T).getD [] = pool ∧
      finishPick pool (resolveCountry d sel.country rc) T
        ((truthy sel.strategy).getD d.defaultStrategy)
        ((truthy sel.sessionKey).getD "")
        (chooseIndex st ((truthy sel.strategy).getD d.defaultStrategy)
          (resolveCountry d sel.country rc) T sel.sessionKey ri pool.length) =
        (.ok m, st') := by
  unfold pickProxy at h
  by_cases hC : resolveCountry d sel.country rc = ""
  · rw [if_pos hC] at h; simp at h
  · rw [if_neg hC] at h
    cases hrec : getProp d.catalog (resolveCountry d sel.country rc) with
    | none => rw [hrec] at h; simp at h
    | some cRec =>
        rw [hrec] at h
        simp only [] at h
        cases hpt : (if ((getProp cRec ((truthy sel.type).getD d.defaultType)).getD []).length ≠ 0
            then some ((truthy sel.type).getD d.defaultType)
            else firstAvailableType cRec) with
        | none => rw [hpt] at h; simp at h
        | some T =>
            rw [hpt] at h
            simp only [] at h
            by_cases hlen : ((getProp cRec T).getD []).length = 0
            · rw [if_pos hlen] at h; simp at h
            · rw [if_neg hlen] at h
              exact ⟨cRec, (getProp cRec T).getD [], T, hC, rfl, hpt, rfl, h⟩

/-! ### Facts about `normalizeDistribution` -/

theorem normalizeDistribution_nil : normalizeDistribution [] = [] := rfl

theorem normalizeDistribution_keys (dist : List (String × ℚ)) :
    (normalizeDistribution dist).map Prod.fst = dist.map Prod.fst := by
  unfold normalizeDistribution
  split
  · rename_i h
    rw [List.isEmpty_iff] at h
    simp [h]
  · split <;> simp

theorem normalizeDistribution_pos (dist : List (String × ℚ)) (hne : dist ≠ [])
    (hs : 0 < (dist.map (fun kv => clamp01 kv.2)).sum) :
    normalizeDistribution dist =
      dist.map (fun kv => (kv.1, clamp01 kv.2 / (dist.map (fun kv => clamp01 kv.2)).sum)) := by
  unfold normalizeDistribution
  rw [if_neg (by simpa [List.isEmpty_iff] using hne), if_neg (not_le.mpr hs)]

theorem normalizeDistribution_uniform (dist : List (String × ℚ)) (hne : dist ≠ [])
    (hs : (dist.map (fun kv => clamp01 kv.2)).sum ≤ 0) :
    normalizeDistribution dist = dist.map (fun kv => (kv.1, 1 / (dist.length : ℚ))) := by
  unfold normalizeDistribution
  rw [if_neg (by simpa [List.isEmpty_iff] using hne), if_pos hs]

theorem normalizeDistribution_sum_pos (dist : List (String × ℚ))
    (hs : 0 < (dist.map (fun kv => clamp01 kv.2)).sum) :
    ((normalizeDistribution dist).map Prod.snd).sum = 1 := by
  have hne : dist ≠ [] := by
    rintro rfl
    simp at hs
  rw [normalizeDistribution_pos dist hne hs]
  rw [List.map_map]
  have : (Prod.snd ∘ fun kv : String × ℚ =>
      (kv.1, clamp01 kv.2 / (dist.map (fun kv => clamp01 kv.2)).sum)) =
      (fun x => x / (dist.map (fun kv => clamp01 kv.2)).sum) ∘ (fun kv => clamp01 kv.2) := by
    funext kv
    rfl
  rw [this, ← List.map_map, sum_map_div]
  exact div_self (ne_of_gt hs)

theorem clamp01_sum_nonneg (dist : List (String × ℚ)) :
    0 ≤ (dist.map (fun kv => clamp01 kv.2)).sum :=
  List.sum_nonneg (by
    intro x hx
    obtain ⟨kv, _, rfl⟩ := List.mem_map.mp hx
    exact clamp01_nonneg _)

theorem clamp01_le_sum {dist : List (String × ℚ)} {kv : String × ℚ} (h : kv ∈ dist) :
    clamp01 kv.2 ≤ (dist.map (fun kv => clamp01 kv.2)).sum :=
  List.single_le_sum (fun x hx => by
      obtain ⟨kv', _, rfl⟩ := List.mem_map.mp hx
      exact clamp01_nonneg _) _
    (List.mem_map.mpr ⟨kv, h, rfl⟩)

/-- A non-empty distribution whose values already lie in `[0,1]` and sum to
`1` is a fixed point of `normalizeDistribution`. -/
theorem normalize_of_unit_sum (r : List (String × ℚ)) (hne : r ≠ [])
    (hunit : ∀ kv ∈ r, 0 ≤ kv.2 ∧ kv.2 ≤ 1)
    (hsum : (r.map Prod.snd).sum = 1) :
    normalizeDistribution r = r := by
  have hclamp : r.map (fun kv => clamp01 kv.2) = r.map Prod.snd := by
    apply List.map_congr_left
    intro kv hkv
    exact clamp01_of_mem_unit (hunit kv hkv).1 (hunit kv hkv).2
  have hs1 : (r.map (fun kv => clamp01 kv.2)).sum = 1 := by rw [hclamp, hsum]
  rw [normalizeDistribution_pos r hne (by rw [hs1]; norm_num), hs1]
  conv_rhs => rw [← List.map_id r]
  apply List.map_congr_left
  intro kv hkv
  simp [clamp01_of_mem_unit (hunit kv hkv).1 (hunit kv hkv).2]

/-- **C5** — Distribution normalization: `normalizeDistribution` maps the
empty map to the empty map; on every non-empty map it preserves the key set,
each weight is clamped to `[0,1]` and divided by the sum of clamped weights
when that sum is positive — so the outputs sum to exactly 1 whenever at
least one clamped weight is positive — and when the sum of clamped weights
is `≤ 0` every key receives the uniform weight `1/N`; in particular
normalizing `(A:0, B:0, C:0)` yields `(A:1/3, B:1/3, C:1/3)`. -/
theorem normalizeDistribution_spec :
    normalizeDistribution [] = [] ∧
    (∀ dist : List (String × ℚ), dist ≠ [] →
      ((normalizeDistribution dist).map Prod.fst = dist.map Prod.fst) ∧
      (0 < (dist.map (fun kv => clamp01 kv.2)).sum →
        normalizeDistribution dist =
          dist.map (fun kv =>
            (kv.1, clamp01 kv.2 / (dist.map (fun kv => clamp01 kv.2)).sum))) ∧
      ((∃ kv ∈ dist, 0 < clamp01 kv.2) →
        ((normalizeDistribution dist).map Prod.snd).sum = 1) ∧
      ((dist.map (fun kv => clamp01 kv.2)).sum ≤ 0 →
        normalizeDistribution dist =
          dist.map (fun kv => (kv.1, 1 / (dist.length : ℚ))))) ∧
    normalizeDistribution [("A", 0), ("B", 0), ("C", 0)] =
      [("A", 1/3), ("B", 1/3), ("C", 1/3)] := by
  refine ⟨rfl, ?_, ?_⟩
  · intro dist hne
    refine ⟨normalizeDistribution_keys dist, normalizeDistribution_pos dist hne, ?_,
      normalizeDistribution_uniform dist hne⟩
    rintro ⟨kv, hkv, hpos⟩
    exact normalizeDistribution_sum_pos dist (lt_of_lt_of_le hpos (clamp01_le_sum hkv))
  · have h0 : clamp01 0 = 0 := by simp [clamp01]
    norm_num [normalizeDistribution, h0]

/-- Witness for C5: a concrete application (key set preserved on a singleton
distribution, with its non-emptiness hypothesis discharged). -/
theorem normalizeDistribution_spec_witness :
    (normalizeDistribution [("A", 2)]).map Prod.fst = ["A"] :=
  (normalizeDistribution_spec.2.1 [("A", 2)] (by decide)).1

/-- **C10** — Normalization idempotence: over exact rational arithmetic,
`normalizeDistribution (normalizeDistribution d) = normalizeDistribution d`
for every distribution `d`. -/
theorem normalizeDistribution_idempotent (dist : List (String × ℚ)) :
    normalizeDistribution (normalizeDistribution dist) = normalizeDistribution dist := by
  by_cases hne : dist = []
  · subst hne; rfl
  · by_cases hs : (dist.map (fun kv => clamp01 kv.2)).sum ≤ 0
    · rw [normalizeDistribution_uniform dist hne hs]
      have hN1 : (1 : ℚ) ≤ (dist.length : ℚ) := by
        exact_mod_cast Nat.one_le_iff_ne_zero.mpr
          (by simpa [List.length_eq_zero] using hne)
      have hNpos : (0 : ℚ) < (dist.length : ℚ) := lt_of_lt_of_le zero_lt_one hN1
      apply normalize_of_unit_sum
      · simpa using hne
      · intro kv hkv
        obtain ⟨kv', _, rfl⟩ := List.mem_map.mp hkv
        exact ⟨div_nonneg zero_le_one (le_of_lt hNpos), (div_le_one hNpos).mpr hN1⟩
      · rw [List.map_map]
        have : (Prod.snd ∘ fun kv : String × ℚ => (kv.1, 1 / (dist.length : ℚ)))
            = fun _ : String × ℚ => 1 / (dist.length : ℚ) := by
          funext kv
          rfl
        rw [this, List.map_const', List.sum_replicate, nsmul_eq_mul]
        rw [mul_one_div]
        exact div_self (ne_of_gt hNpos)
    · push_neg at hs
      rw [normalizeDistribution_pos dist hne hs]
      apply normalize_of_unit_sum
      · simpa using hne
      · intro kv hkv
        obtain ⟨kv', hkv', rfl⟩ := List.mem_map.mp hkv
        refine ⟨div_nonneg (clamp01_nonneg _) (le_of_lt hs), ?_⟩
        rw [div_le_one hs]
        exact clamp01_le_sum hkv'
      · rw [List.map_map]
        have : (Prod.snd ∘ fun kv : String × ℚ =>
            (kv.1, clamp01 kv.2 / (dist.map (fun kv => clamp01 kv.2)).sum))
            = (fun x => x / (dist.map (fun kv => clamp01 kv.2)).sum)
              ∘ (fun kv : String × ℚ => clamp01 kv.2) := by
          funext kv
          rfl
        rw [this, ← List.map_map, sum_map_div]
        exact div_self (ne_of_gt hs)

/-! ### Session-token expansion -/

theorem substAux_no_dollar (matched pre post : List Char) :
    ∀ rep : List Char, (∀ c ∈ rep, c ≠ '$') →
      substAux matched pre post rep = rep
  | [], _ => rfl
  | c :: rest, h => by
      have hc : ¬ c = '$' := h c (List.mem_cons_self _ _)
      have hrest := substAux_no_dollar matched pre post rest
        (fun x hx => h x (List.mem_cons_of_mem _ hx))
      rw [substAux.eq_def]
      simp only []
      rw [if_neg hc, hrest]

/-- With a `$`-free replacement text, `GetSubstitution`-based replacement
coincides with literal insertion. -/
theorem repAux_no_dollar (pat rep : List Char) (hrep : ∀ c ∈ rep, c ≠ '$') :
    ∀ (fuel : Nat) (pre s : List Char),
      repAux pat rep fuel pre s = repLitAux pat rep fuel s := by
  intro fuel
  induction fuel with
  | zero =>
      intro pre s
      cases s <;> rfl
  | succ fuel ih =>
      intro pre s
      cases s with
      | nil => rfl
      | cons c rest =>
          simp only [repAux, repLitAux]
          rw [substAux_no_dollar _ _ _ _ hrep]
          by_cases hm : startsWithL pat (c :: rest) = true
          · rw [if_pos hm, if_pos hm, ih]
          · rw [if_neg hm, if_neg hm, ih]

theorem replaceAll_no_dollar (s pat rep : String)
    (hrep : ∀ c ∈ rep.data, c ≠ '$') :
    replaceAll s pat rep = replaceAllLiteral s pat rep := by
  unfold replaceAll replaceAllLiteral
  by_cases hp : pat = ""
  · rw [if_pos hp, if_pos hp]
  · rw [if_neg hp, if_neg hp, repAux_no_dollar pat.data rep.data hrep]

/-- **C6 counterexample** — the claim says the expansion replaces every
occurrence of `$\x7bsession\x7d` with the session string, for every
non-empty session string.  JS `replaceAll` applies `GetSubstitution` to the
replacement: with session `"$&"` the replacement re-inserts the matched
token itself, so the code leaves the host unchanged
(`u-$\x7bsession\x7d.io`) where the claimed literal insertion would give
`u-$&.io`. -/
theorem sessionToken_substitution_counterexample :
    (applySessionToken
        { protocol := "http", host := "u-$\x7bsession\x7d.io", port := 80 }
        "$&").host = "u-$\x7bsession\x7d.io" ∧
    replaceAllLiteral "u-$\x7bsession\x7d.io" "$\x7bsession\x7d" "$&" = "u-$&.io" ∧
    "u-$\x7bsession\x7d.io" ≠ "u-$&.io" := by
  refine ⟨by decide, by decide, by decide⟩

/-- **C6 (amended)** — Session-token expansion: for every endpoint and
non-empty session string, the expansion used by `pickProxy` replaces every
occurrence of the literal substring `$\x7bsession\x7d` in the `host`,
`username` and `password` fields by the session string *as processed by JS
`GetSubstitution`* (`$$` → `$`, `$&` → the matched token, `$` + backquote →
the text before the match, `$` + quote → the text after it; everything else
literal), and never alters `protocol` or `port`; for session strings
containing no `$` this processing is the identity, so the literal session
string is inserted; for an empty/falsy session string it returns a shallow
copy of the endpoint with all fields unmodified and the markers intact; and
on every successful `pickProxy` call the returned `proxyConfig` is exactly
this expansion of the stored endpoint at the call's session key. -/
theorem applySessionToken_spec :
    (∀ (cfg : ProxyConfig) (session : String), session ≠ "" →
      (applySessionToken cfg session).protocol = cfg.protocol ∧
      (applySessionToken cfg session).port = cfg.port ∧
      (applySessionToken cfg session).host =
        replaceAll cfg.host "$\x7bsession\x7d" session ∧
      (applySessionToken cfg session).username =
        cfg.username.map (fun v => replaceAll v "$\x7bsession\x7d" session) ∧
      (applySessionToken cfg session).password =
        cfg.password.map (fun v => replaceAll v "$\x7bsession\x7d" session)) ∧
    (∀ (s pat rep : String), (∀ c ∈ rep.data, c ≠ '$') →
      replaceAll s pat rep = replaceAllLiteral s pat rep) ∧
    (∀ cfg : ProxyConfig, applySessionToken cfg "" = cfg) ∧
    (∀ (d : Director) (st : DirState) (sel : Selection) (rc ri : ℚ)
        (m : ProxyPickMeta) (st' : DirState),
      pickProxy d st sel rc ri = (.ok m, st') →
      ∃ (e : ProviderEntry) (ep : ProxyConfig), e.endpoint = some ep ∧
        m.proxyConfig = applySessionToken ep ((truthy sel.sessionKey).getD "")) ∧
    applySessionToken
        { protocol := "http", host := "u-$\x7bsession\x7d.proxy.io", port := 80,
          username := some "acct-$\x7bsession\x7d" } "42"
      = { protocol := "http", host := "u-42.proxy.io", port := 80,
          username := some "acct-42" } ∧
    (applySessionToken
        { protocol := "http", host := "u-$\x7bsession\x7d.io", port := 80 }
        "$$42").host = "u-$42.io" := by
  refine ⟨?_, replaceAll_no_dollar, ?_, ?_, by decide, by decide⟩
  · intro cfg session hs
    simp [applySessionToken, hs]
  · intro cfg
    simp [applySessionToken]
  · intro d st sel rc ri m st' h
    obtain ⟨cRec, pool, T, _, _, _, _, hfin⟩ := pickProxy_ok_inv h
    obtain ⟨e, ep, _, hep, _, hm⟩ := finishPick_ok hfin
    exact ⟨e, ep, hep, by rw [hm]⟩

/-- Witness for C6: the non-empty-session clause applied at a concrete
endpoint and session string. -/
theorem applySessionToken_spec_witness :
    (applySessionToken
        { protocol := "http", host := "u-$\x7bsession\x7d.proxy.io", port := 80 }
        "42").protocol = "http" :=
  (applySessionToken_spec.1
    { protocol := "http", host := "u-$\x7bsession\x7d.proxy.io", port := 80 }
    "42" (by decide)).1

/-! ### Round-robin characterization -/

/-- One `pickProxy` call under the `roundRobin` strategy, with the
resolution pinned to `(C, T, pool)`: it succeeds on a wellformed pool,
returns the slot at index `(cursor + 1) % L` where a missing cursor reads as
`0`, and persists that index as the new cursor under the `C:T` key, leaving
the sticky table and all other cursors untouched. -/
theorem pickProxy_roundRobin_char
    {d : Director} (st : DirState) {sel : Selection} (rc : ℚ) {ri : ℚ}
    {C T : String} {cRec : CountryRec} {pool : Pool}
    (hres : resolveCountry d sel.country rc = C)
    (hC : C ≠ "")
    (hrec : getProp d.catalog C = some cRec)
    (hpt : (if ((getProp cRec ((truthy sel.type).getD d.defaultType)).getD []).length ≠ 0
            then some ((truthy sel.type).getD d.defaultType)
            else firstAvailableType cRec) = some T)
    (hpool : (getProp cRec T).getD [] = pool)
    (hne : pool ≠ [])
    (hwf : WFPool pool)
    (hstrat : (truthy sel.strategy).getD d.defaultStrategy = "roundRobin") :
    ∃ e ep,
      pool.get? ((((getProp st.rr (C ++ ":" ++ T)).getD 0) + 1) % pool.length)
        = some (some e) ∧
      e.endpoint = some ep ∧
      pickProxy d st sel rc ri =
        (.ok { proxyConfig := applySessionToken ep ((truthy sel.sessionKey).getD "")
               country := C, type := T, strategy := "roundRobin"
               provider := e.provider, notes := e.notes },
         ⟨setAssoc st.rr (C ++ ":" ++ T)
            ((((getProp st.rr (C ++ ":" ++ T)).getD 0) + 1) % pool.length),
          st.sticky⟩) := by
  have hlen : 0 < pool.length := List.length_pos.mpr hne
  have hi : (((getProp st.rr (C ++ ":" ++ T)).getD 0) + 1) % pool.length < pool.length :=
    Nat.mod_lt _ hlen
  obtain ⟨e, ep, hget, hep, hfin⟩ :=
    finishPick_wf C T "roundRobin" ((truthy sel.sessionKey).getD "")
      (⟨setAssoc st.rr (C ++ ":" ++ T)
          ((((getProp st.rr (C ++ ":" ++ T)).getD 0) + 1) % pool.length),
        st.sticky⟩ : DirState) hwf hi
  refine ⟨e, ep, hget, hep, ?_⟩
  rw [pickProxy_resolved st rc hres hC hrec hpt hpool hne, hstrat,
    chooseIndex_roundRobin]
  rw [nextRR]
  exact hfin

/-! ### Concrete directors used as test vectors -/

/-- Endpoint of the slot at index 0 of the two-slot test pool. -/
def epA : ProxyConfig := { protocol := "http", host := "h1", port := 80 }

/-- Endpoint of the slot at index 1 of the two-slot test pool. -/
def epB : ProxyConfig := { protocol := "http", host := "h2", port := 80 }

def entA : ProviderEntry := { provider := some "P", endpoint := some epA }

def entB : ProviderEntry := { provider := some "P", endpoint := some epB }

/-- The two-slot test pool. -/
def poolUS : Pool := [some entA, some entB]

/-- The country record holding the two-slot pool under `res_rotating`. -/
def recUS : CountryRec := [("res_rotating", poolUS)]

/-- A director whose catalog has the single country `US` with a two-entry
`res_rotating` pool. -/
def dUS2 : Director := { catalog := [("US", recUS)] }

/-- The fresh director state (empty round-robin and sticky maps). -/
def st0 : DirState := ⟨[], []⟩

def selRR : Selection :=
  { country := some "US", type := some "res_rotating", strategy := some "roundRobin" }

/-- **C1 counterexample** — the claim says the first `roundRobin` call on a
never-used `country:type` key returns the entry at index 0 (cursor starting
at `-1`).  On the code, `_nextRR` reads a missing cursor as `0` and
pre-increments, so the very first call on the fresh key `US:res_rotating` of
a pool of length 2 returns the entry at index `1` (host `h2`), not the
index-0 entry (host `h1`). -/
theorem roundRobin_first_call_not_index_zero :
    resultMeta (pickProxy dUS2 st0 selRR 0 0) =
      some { proxyConfig := epB, country := "US", type := "res_rotating",
             strategy := "roundRobin", provider := some "P", notes := none } ∧
    epB ≠ epA := by
  constructor
  · decide
  · decide

/-- **C1 (amended)** — Round-robin cursor semantics: for every director and
every `(country, type)` pool of length `L` the round-robin cursor
conceptually starts at `0` (a missing `country:type` key reads as `0`) and
is pre-incremented, so the first call on a never-used key returns the entry
at index `1 % L` — not index 0 — and every call returns the entry at index
`(cursor + 1) % L` and persists that value as the new cursor, the state
persisting across calls sharing the key (the sticky table and other cursor
keys are untouched). -/
theorem roundRobin_cursor_semantics
    {d : Director} (st : DirState) {sel : Selection} (rc : ℚ) {ri : ℚ}
    {C T : String} {cRec : CountryRec} {pool : Pool}
    (hres : resolveCountry d sel.country rc = C)
    (hC : C ≠ "")
    (hrec : getProp d.catalog C = some cRec)
    (hpt : (if ((getProp cRec ((truthy sel.type).getD d.defaultType)).getD []).length ≠ 0
            then some ((truthy sel.type).getD d.defaultType)
            else firstAvailableType cRec) = some T)
    (hpool : (getProp cRec T).getD [] = pool)
    (hne : pool ≠ [])
    (hwf : WFPool pool)
    (hstrat : (truthy sel.strategy).getD d.defaultStrategy = "roundRobin") :
    (∃ e ep,
      pool.get? ((((getProp st.rr (C ++ ":" ++ T)).getD 0) + 1) % pool.length)
        = some (some e) ∧
      e.endpoint = some ep ∧
      pickProxy d st sel rc ri =
        (.ok { proxyConfig := applySessionToken ep ((truthy sel.sessionKey).getD "")
               country := C, type := T, strategy := "roundRobin"
               provider := e.provider, notes := e.notes },
         ⟨setAssoc st.rr (C ++ ":" ++ T)
            ((((getProp st.rr (C ++ ":" ++ T)).getD 0) + 1) % pool.length),
          st.sticky⟩)) ∧
    (getProp st.rr (C ++ ":" ++ T) = none →
      (((getProp st.rr (C ++ ":" ++ T)).getD 0) + 1) % pool.length
        = 1 % pool.length) ∧
    (getProp (setAssoc st.rr (C ++ ":" ++ T)
        ((((getProp st.rr (C ++ ":" ++ T)).getD 0) + 1) % pool.length))
        (C ++ ":" ++ T)
      = some ((((getProp st.rr (C ++ ":" ++ T)).getD 0) + 1) % pool.length)) := by
  refine ⟨pickProxy_roundRobin_char st rc hres hC hrec hpt hpool hne hwf hstrat, ?_, ?_⟩
  · intro hfresh
    rw [hfresh]
    simp
  · exact getProp_setAssoc_self _ _ _

/-- Witness for the amended C1: the round-robin cursor semantics applied to
the concrete two-entry director on its fresh state. -/
theorem roundRobin_cursor_semantics_witness :
    ∃ e ep,
      poolUS.get?
          ((((getProp st0.rr ("US" ++ ":" ++ "res_rotating")).getD 0) + 1) % poolUS.length)
        = some (some e) ∧
      e.endpoint = some ep ∧
      pickProxy dUS2 st0 selRR 0 0 =
        (.ok { proxyConfig := applySessionToken ep ((truthy selRR.sessionKey).getD "")
               country := "US", type := "res_rotating", strategy := "roundRobin"
               provider := e.provider, notes := e.notes },
         ⟨setAssoc st0.rr ("US" ++ ":" ++ "res_rotating")
            ((((getProp st0.rr ("US" ++ ":" ++ "res_rotating")).getD 0) + 1) % poolUS.length),
          st0.sticky⟩) :=
  (@roundRobin_cursor_semantics dUS2 st0 selRR 0 0 "US" "res_rotating" recUS poolUS
    (by decide) (by decide) (by decide) (by decide) (by decide) (by decide)
    (by decide) (by decide)).1

theorem add_one_mod (k L : Nat) : (k % L + 1) % L = (k + 1) % L := by
  conv_rhs => rw [Nat.add_mod]
  rw [Nat.add_mod, Nat.mod_mod]

/-- After `k` round-robin calls starting from a state whose `C:T` cursor is
fresh, the cursor reads `k % L` (with the `getD 0` default read for `k = 0`). -/
theorem roundRobin_iterate_cursor
    {d : Director} {sel : Selection} (rc ri : ℚ)
    {C T : String} {cRec : CountryRec} {pool : Pool}
    (hres : resolveCountry d sel.country rc = C)
    (hC : C ≠ "")
    (hrec : getProp d.catalog C = some cRec)
    (hpt : (if ((getProp cRec ((truthy sel.type).getD d.defaultType)).getD []).length ≠ 0
            then some ((truthy sel.type).getD d.defaultType)
            else firstAvailableType cRec) = some T)
    (hpool : (getProp cRec T).getD [] = pool)
    (hne : pool ≠ [])
    (hwf : WFPool pool)
    (hstrat : (truthy sel.strategy).getD d.defaultStrategy = "roundRobin")
    (st : DirState) (hfresh : getProp st.rr (C ++ ":" ++ T) = none) :
    ∀ k : Nat,
      (getProp (((pickStep d sel rc ri)^[k]) st).rr (C ++ ":" ++ T)).getD 0
        = k % pool.length := by
  intro k
  induction k with
  | zero => simp [hfresh]
  | succ k ih =>
      rw [Function.iterate_succ_apply']
      obtain ⟨e, ep, hget, hep, hcall⟩ :=
        pickProxy_roundRobin_char (((pickStep d sel rc ri)^[k]) st) rc
          hres hC hrec hpt hpool hne hwf hstrat
      rw [pickStep, hcall]
      simp only []
      rw [getProp_setAssoc_self, Option.getD_some, ih, add_one_mod]

/-- **C9** — Round-robin full coverage: with a fixed resolved country/type
pool of length `L` and a fresh cursor key, the `(k+1)`-st `pickProxy` call
(`k = 0, 1, ...`) succeeds and returns the pool entry at index
`(k + 1) % L`; hence the first `L` calls visit each pool index exactly once,
in consecutive (+1 mod L) order, before repeating, and the `(L+1)`-st call
returns the same index as the first. -/
theorem roundRobin_full_coverage
    {d : Director} {sel : Selection} (rc ri : ℚ)
    {C T : String} {cRec : CountryRec} {pool : Pool}
    (hres : resolveCountry d sel.country rc = C)
    (hC : C ≠ "")
    (hrec : getProp d.catalog C = some cRec)
    (hpt : (if ((getProp cRec ((truthy sel.type).getD d.defaultType)).getD []).length ≠ 0
            then some ((truthy sel.type).getD d.defaultType)
            else firstAvailableType cRec) = some T)
    (hpool : (getProp cRec T).getD [] = pool)
    (hne : pool ≠ [])
    (hwf : WFPool pool)
    (hstrat : (truthy sel.strategy).getD d.defaultStrategy = "roundRobin")
    (st : DirState) (hfresh : getProp st.rr (C ++ ":" ++ T) = none) :
    (∀ k : Nat, ∃ e ep,
      pool.get? ((k + 1) % pool.length) = some (some e) ∧
      e.endpoint = some ep ∧
      resultMeta (pickProxy d (((pickStep d sel rc ri)^[k]) st) sel rc ri) =
        some { proxyConfig := applySessionToken ep ((truthy sel.sessionKey).getD "")
               country := C, type := T, strategy := "roundRobin"
               provider := e.provider, notes := e.notes }) ∧
    (∀ k1 k2 : Nat, 1 ≤ k1 → k1 ≤ pool.length → 1 ≤ k2 → k2 ≤ pool.length →
      k1 % pool.length = k2 % pool.length → k1 = k2) ∧
    (pool.length + 1) % pool.length = 1 % pool.length := by
  have hlen : 0 < pool.length := List.length_pos.mpr hne
  refine ⟨?_, ?_, ?_⟩
  · intro k
    obtain ⟨e, ep, hget, hep, hcall⟩ :=
      pickProxy_roundRobin_char (((pickStep d sel rc ri)^[k]) st) rc
        hres hC hrec hpt hpool hne hwf hstrat
    rw [roundRobin_iterate_cursor rc ri hres hC hrec hpt hpool hne hwf hstrat
      st hfresh k, add_one_mod] at hget
    refine ⟨e, ep, hget, hep, ?_⟩
    rw [resultMeta, hcall]
  · intro k1 k2 h11 h1L h21 h2L hmod
    rcases Nat.lt_or_ge k1 pool.length with hk1 | hk1
    · rcases Nat.lt_or_ge k2 pool.length with hk2 | hk2
      · rwa [Nat.mod_eq_of_lt hk1, Nat.mod_eq_of_lt hk2] at hmod
      · have hk2' : k2 = pool.length := le_antisymm h2L hk2
        subst hk2'
        rw [Nat.mod_eq_of_lt hk1, Nat.mod_self] at hmod
        omega
    · have hk1' : k1 = pool.length := le_antisymm h1L hk1
      subst hk1'
      rcases Nat.lt_or_ge k2 pool.length with hk2 | hk2
      · rw [Nat.mod_self, Nat.mod_eq_of_lt hk2] at hmod
        omega
      · exact (le_antisymm h2L hk2).symm
  · conv_lhs => rw [Nat.add_mod, Nat.mod_self]
    simp

/-- Witness for C9: the per-call clause of the coverage theorem applied to
the concrete two-entry director at its first call (`k = 0`). -/
theorem roundRobin_full_coverage_witness :
    ∃ e ep,
      poolUS.get? ((0 + 1) % poolUS.length) = some (some e) ∧
      e.endpoint = some ep ∧
      resultMeta (pickProxy dUS2 (((pickStep dUS2 selRR 0 0)^[0]) st0) selRR 0 0) =
        some { proxyConfig := applySessionToken ep ((truthy selRR.sessionKey).getD "")
               country := "US", type := "res_rotating", strategy := "roundRobin"
               provider := e.provider, notes := e.notes } :=
  (@roundRobin_full_coverage dUS2 selRR 0 0 "US" "res_rotating" recUS poolUS
    (by decide) (by decide) (by decide) (by decide) (by decide) (by decide)
    (by decide) (by decide) st0 (by decide)).1 0

/-! ### Sticky-without-key degrades to round robin -/

theorem mapError_eq {ε α β : Type} (f : α → β) (e : ε) :
    Except.map f (Except.error e) = Except.error e := rfl

theorem mapOk_eq {ε α β : Type} (f : α → β) (a : α) :
    Except.map f (Except.ok a : Except ε α) = Except.ok (f a) := rfl

/-- `finishPick` only threads the strategy string into the returned meta:
two runs differing in that string alone agree up to relabelling it. -/
theorem finishPick_strategy (pool : Pool) (C T s s' skey : String)
    (ist : Nat × DirState) :
    finishPick pool C T s skey ist =
      ((finishPick pool C T s' skey ist).1.map fun m => { m with strategy := s },
       (finishPick pool C T s' skey ist).2) := by
  unfold finishPick
  cases hget : pool.get? ist.1 with
  | none => simp [mapError_eq]
  | some slot =>
      cases slot with
      | none => simp [mapError_eq]
      | some e =>
          cases hep : e.endpoint with
          | none => simp [hep, mapError_eq]
          | some ep => simp [hep, mapOk_eq]

/-- **C3** — Sticky-without-key degrades to round robin: from any director
state, a `pickProxy` call with strategy `sticky` and no (or an empty)
`sessionKey` produces exactly the result and state of the equivalent
`roundRobin` call — same cursor read and update on the same `country:type`
key, identical returned index and proxyConfig, identical errors — with only
the reported `strategy` string relabelled; in particular it is not an
error whenever the round-robin call is not. -/
theorem sticky_noKey_degrades (d : Director) (st : DirState)
    (selS selR : Selection) (rc ri : ℚ)
    (hcountry : selS.country = selR.country)
    (htype : selS.type = selR.type)
    (hkey : selS.sessionKey = selR.sessionKey)
    (hkS : truthy selS.sessionKey = none)
    (hsS : selS.strategy = some "sticky")
    (hsR : selR.strategy = some "roundRobin") :
    pickProxy d st selS rc ri =
      ((pickProxy d st selR rc ri).1.map fun m => { m with strategy := "sticky" },
       (pickProxy d st selR rc ri).2) := by
  unfold pickProxy
  rw [hcountry, htype, hkey, hsS, hsR]
  have hts : truthy (some "sticky") = some "sticky" := by simp [truthy]
  have htr : truthy (some "roundRobin") = some "roundRobin" := by simp [truthy]
  rw [hts, htr]
  simp only [Option.getD_some]
  by_cases hC : resolveCountry d selR.country rc = ""
  · simp only [if_pos hC]
    simp [mapError_eq]
  · simp only [if_neg hC]
    cases hrec : getProp d.catalog (resolveCountry d selR.country rc) with
    | none => simp [mapError_eq]
    | some cRec =>
        simp only []
        cases hpt : (if ((getProp cRec ((truthy selR.type).getD d.defaultType)).getD []).length ≠ 0
            then some ((truthy selR.type).getD d.defaultType)
            else firstAvailableType cRec) with
        | none => simp [mapError_eq]
        | some T =>
            simp only []
            by_cases hlen : ((getProp cRec T).getD []).length = 0
            · simp only [if_pos hlen]
              simp [mapError_eq]
            · simp only [if_neg hlen]
              rw [chooseIndex_sticky_noKey st (resolveCountry d selR.country rc) T ri
                ((getProp cRec T).getD []).length (hkey ▸ hkS)]
              exact finishPick_strategy _ _ _ _ "roundRobin" _ _

/-- The sticky selection with no session key, on the concrete director. -/
def selStickyNK : Selection :=
  { country := some "US", type := some "res_rotating", strategy := some "sticky" }

/-- Witness for C3: the degrade equivalence instantiated on the concrete
two-entry director and its fresh state. -/
theorem sticky_noKey_degrades_witness :
    pickProxy dUS2 st0 selStickyNK 0 0 =
      ((pickProxy dUS2 st0 selRR 0 0).1.map fun m => { m with strategy := "sticky" },
       (pickProxy dUS2 st0 selRR 0 0).2) :=
  sticky_noKey_degrades dUS2 st0 selStickyNK selRR 0 0 rfl rfl rfl (by decide) rfl rfl

/-! ### Sticky affinity -/

theorem truthy_inv {o : Option String} {s : String} (h : truthy o = some s) :
    o = some s ∧ s ≠ "" := by
  cases o with
  | none => simp [truthy] at h
  | some t =>
      by_cases ht : t = ""
      · rw [ht] at h
        simp at h
      · rw [truthy_some_of_ne ht] at h
        cases h
        exact ⟨rfl, ht⟩

/-- The sticky branch of the strategy dispatch with a non-empty session key:
look the key up; reuse a matching in-bounds entry unchanged, otherwise draw
a fresh index and overwrite the entry for that key. -/
theorem chooseIndex_sticky_key (st : DirState) (C T : String)
    {sessionKey : Option String} (ri : ℚ) (len : Nat) {skey : String}
    (hk : truthy sessionKey = some skey) :
    chooseIndex st "sticky" C T sessionKey ri len =
      (match getProp st.sticky skey with
       | some ex =>
           if ex.country = C ∧ ex.type = T ∧ ex.index < len then (ex.index, st)
           else (randIndex ri len,
             ⟨st.rr, setAssoc st.sticky skey ⟨C, T, randIndex ri len⟩⟩)
       | none => (randIndex ri len,
           ⟨st.rr, setAssoc st.sticky skey ⟨C, T, randIndex ri len⟩⟩)) := by
  obtain ⟨ho, hne⟩ := truthy_inv hk
  simp only [chooseIndex, reduceIte, hk, Option.getD_some, if_neg hne]
  rfl

/-- **C2 (amended)** — Sticky affinity: with strategy `sticky` and a
non-empty `sessionKey` resolving to `(C, T, pool)`:
(i) when the sticky table holds an entry for the key whose country and type
match the resolved pair and whose index is within bounds, the call returns
that stored index and leaves the whole director state unchanged;
(ii) otherwise it picks the fresh uniform index `randIndex ri L < L` and
overwrites the sticky entry for that key;
(iii) consequently the call succeeds, and repeating the call with the same
`sessionKey` and the same resolved pair — with no interfering call with
that key and a different resolved pair in between — returns the identical
meta (same index, same `proxyConfig`) and never changes the state again. -/
theorem sticky_affinity
    {d : Director} (st : DirState) {sel : Selection} (rc : ℚ) {ri : ℚ}
    {C T : String} {cRec : CountryRec} {pool : Pool} {skey : String}
    (hres : resolveCountry d sel.country rc = C)
    (hC : C ≠ "")
    (hrec : getProp d.catalog C = some cRec)
    (hpt : (if ((getProp cRec ((truthy sel.type).getD d.defaultType)).getD []).length ≠ 0
            then some ((truthy sel.type).getD d.defaultType)
            else firstAvailableType cRec) = some T)
    (hpool : (getProp cRec T).getD [] = pool)
    (hne : pool ≠ [])
    (hwf : WFPool pool)
    (hstrat : (truthy sel.strategy).getD d.defaultStrategy = "sticky")
    (hk : truthy sel.sessionKey = some skey)
    (hr0 : 0 ≤ ri) (hr1 : ri < 1) :
    (∀ ex : StickyEntry, getProp st.sticky skey = some ex →
      ex.country = C → ex.type = T → ex.index < pool.length →
      ∃ e ep, pool.get? ex.index = some (some e) ∧ e.endpoint = some ep ∧
        pickProxy d st sel rc ri =
          (.ok { proxyConfig := applySessionToken ep skey
                 country := C, type := T, strategy := "sticky"
                 provider := e.provider, notes := e.notes }, st)) ∧
    ((∀ ex : StickyEntry, getProp st.sticky skey = some ex →
        ¬(ex.country = C ∧ ex.type = T ∧ ex.index < pool.length)) →
      randIndex ri pool.length < pool.length ∧
      ∃ e ep, pool.get? (randIndex ri pool.length) = some (some e) ∧
        e.endpoint = some ep ∧
        pickProxy d st sel rc ri =
          (.ok { proxyConfig := applySessionToken ep skey
                 country := C, type := T, strategy := "sticky"
                 provider := e.provider, notes := e.notes },
           ⟨st.rr, setAssoc st.sticky skey ⟨C, T, randIndex ri pool.length⟩⟩)) ∧
    (∃ m1 st1, pickProxy d st sel rc ri = (.ok m1, st1) ∧
      pickProxy d st1 sel rc ri = (.ok m1, st1)) := by
  have hkey : (truthy sel.sessionKey).getD "" = skey := by rw [hk]; rfl
  have hchar : pickProxy d st sel rc ri =
      finishPick pool C T "sticky" skey
        (chooseIndex st "sticky" C T sel.sessionKey ri pool.length) := by
    rw [pickProxy_resolved st rc hres hC hrec hpt hpool hne, hstrat, hkey]
  have hlen : 0 < pool.length := List.length_pos.mpr hne
  have hrand : randIndex ri pool.length < pool.length := randIndex_lt _ hr0 hr1 hlen
  -- the common fresh-index outcome
  have hfreshPick : ∀ st' : DirState,
      chooseIndex st "sticky" C T sel.sessionKey ri pool.length =
        (randIndex ri pool.length, st') →
      ∃ e ep, pool.get? (randIndex ri pool.length) = some (some e) ∧
        e.endpoint = some ep ∧
        pickProxy d st sel rc ri =
          (.ok { proxyConfig := applySessionToken ep skey
                 country := C, type := T, strategy := "sticky"
                 provider := e.provider, notes := e.notes }, st') := by
    intro st' hch
    obtain ⟨e, ep, hget, hep, hfin⟩ := finishPick_wf C T "sticky" skey st' hwf hrand
    exact ⟨e, ep, hget, hep, by rw [hchar, hch, hfin]⟩
  refine ⟨?_, ?_, ?_⟩
  · intro ex hex hc ht hi
    obtain ⟨e, ep, hget, hep, hfin⟩ := finishPick_wf C T "sticky" skey st hwf hi
    refine ⟨e, ep, hget, hep, ?_⟩
    rw [hchar, chooseIndex_sticky_key st C T ri pool.length hk, hex]
    simp only []
    rw [if_pos ⟨hc, ht, hi⟩, hfin]
  · intro hmis
    refine ⟨hrand, ?_⟩
    apply hfreshPick
    rw [chooseIndex_sticky_key st C T ri pool.length hk]
    cases hex : getProp st.sticky skey with
    | none => rfl
    | some ex =>
        simp only []
        rw [if_neg (hmis ex hex)]
  · -- first call, by cases on the sticky lookup
    have step2 : ∀ (st1 : DirState) (m1 : ProxyPickMeta) (ex : StickyEntry),
        getProp st1.sticky skey = some ex → ex.country = C → ex.type = T →
        ex.index < pool.length →
        (∃ e ep, pool.get? ex.index = some (some e) ∧ e.endpoint = some ep ∧
          m1 = { proxyConfig := applySessionToken ep skey
                 country := C, type := T, strategy := "sticky"
                 provider := e.provider, notes := e.notes }) →
        pickProxy d st1 sel rc ri = (.ok m1, st1) := by
      intro st1 m1 ex hst1 hexc hext hi ⟨e, ep, hget, hep, hm⟩
      have hchar1 : pickProxy d st1 sel rc ri =
          finishPick pool C T "sticky" skey
            (chooseIndex st1 "sticky" C T sel.sessionKey ri pool.length) := by
        rw [pickProxy_resolved st1 rc hres hC hrec hpt hpool hne, hstrat, hkey]
      obtain ⟨e', ep', hget', hep', hfin'⟩ := finishPick_wf C T "sticky" skey st1 hwf hi
      rw [hget] at hget'
      cases hget'
      rw [hep] at hep'
      cases hep'
      rw [hchar1, chooseIndex_sticky_key st1 C T ri pool.length hk, hst1]
      simp only []
      rw [if_pos ⟨hexc, hext, hi⟩, hfin', hm]
    cases hex : getProp st.sticky skey with
    | some ex =>
        by_cases hm : ex.country = C ∧ ex.type = T ∧ ex.index < pool.length
        · obtain ⟨e, ep, hget, hep, hfin⟩ := finishPick_wf C T "sticky" skey st hwf hm.2.2
          have hcall1 : pickProxy d st sel rc ri =
              (.ok { proxyConfig := applySessionToken ep skey
                     country := C, type := T, strategy := "sticky"
                     provider := e.provider, notes := e.notes }, st) := by
            rw [hchar, chooseIndex_sticky_key st C T ri pool.length hk, hex]
            simp only []
            rw [if_pos hm, hfin]
          refine ⟨_, _, hcall1, ?_⟩
          exact step2 st _ ex hex hm.1 hm.2.1 hm.2.2 ⟨e, ep, hget, hep, rfl⟩
        · obtain ⟨e, ep, hget, hep, hcall⟩ := hfreshPick
            ⟨st.rr, setAssoc st.sticky skey ⟨C, T, randIndex ri pool.length⟩⟩
            (by rw [chooseIndex_sticky_key st C T ri pool.length hk, hex]
                simp only []
                rw [if_neg hm])
          refine ⟨_, _, hcall, ?_⟩
          exact step2 _ _ ⟨C, T, randIndex ri pool.length⟩
            (getProp_setAssoc_self _ _ _) rfl rfl hrand ⟨e, ep, hget, hep, rfl⟩
    | none =>
        obtain ⟨e, ep, hget, hep, hcall⟩ := hfreshPick
          ⟨st.rr, setAssoc st.sticky skey ⟨C, T, randIndex ri pool.length⟩⟩
          (by rw [chooseIndex_sticky_key st C T ri pool.length hk, hex])
        refine ⟨_, _, hcall, ?_⟩
        exact step2 _ _ ⟨C, T, randIndex ri pool.length⟩
          (getProp_setAssoc_self _ _ _) rfl rfl hrand ⟨e, ep, hget, hep, rfl⟩

/-- Endpoint of the single `DE` entry of the two-country test director. -/
def epC : ProxyConfig := { protocol := "http", host := "h3", port := 80 }

def entC : ProviderEntry := { provider := some "P", endpoint := some epC }

/-- A director with a two-entry `US` pool and a one-entry `DE` pool. -/
def dUSDE : Director :=
  { catalog := [("US", recUS), ("DE", [("res_rotating", [some entC])])] }

def selStickyUS : Selection :=
  { country := some "US", type := some "res_rotating",
    strategy := some "sticky", sessionKey := some "u1" }

def selStickyDE : Selection :=
  { country := some "DE", type := some "res_rotating",
    strategy := some "sticky", sessionKey := some "u1" }

/-- **C2 counterexample** — the claim's consequence "after a first call with
a new sessionKey every later call with that key and the same resolved pair
is pinned to the same index" fails: the first sticky call with key `u1`
resolved to `(US, res_rotating)` returns the index-0 endpoint (`h1`), but
after an interfering call with the *same key* resolved to
`(DE, res_rotating)` overwrites the sticky entry, a later call with the same
key and the same resolved pair `(US, res_rotating)` re-randomizes and
returns the index-1 endpoint (`h2`) — not the pinned index. -/
theorem sticky_pinning_counterexample :
    (resultMeta (pickProxy dUSDE st0 selStickyUS 0 0)).map (fun m => m.proxyConfig)
      = some epA ∧
    (resultMeta (pickProxy dUSDE
        (pickStep dUSDE selStickyDE 0 0 (pickStep dUSDE selStickyUS 0 0 st0))
        selStickyUS 0 (mkRat 1 2))).map (fun m => m.proxyConfig) = some epB ∧
    epA ≠ epB := by
  refine ⟨by decide, by decide, by decide⟩

/-- Witness for the amended C2: the success-and-consecutive-pinning clause
instantiated on the concrete one-country director. -/
theorem sticky_affinity_witness :
    ∃ m1 st1, pickProxy dUS2 st0 selStickyUS 0 0 = (.ok m1, st1) ∧
      pickProxy dUS2 st1 selStickyUS 0 0 = (.ok m1, st1) :=
  (@sticky_affinity dUS2 st0 selStickyUS 0 0 "US" "res_rotating" recUS poolUS "u1"
    (by decide) (by decide) (by decide) (by decide) (by decide) (by decide)
    (by decide) (by decide) (by decide) (by decide) (by decide)).2.2

/-! ### Failure semantics -/

/-- Catalog wellformedness, i.e. the shape the spec's data model prescribes:
country keys are unique, non-empty and already uppercased, and each country
record's type keys are unique and non-empty. -/
def WFCatalog (cat : Catalog) : Prop :=
  (cat.map Prod.fst).Nodup ∧
  ∀ kv ∈ cat, kv.1 ≠ "" ∧ jsToUpper kv.1 = kv.1 ∧
    (kv.2.map Prod.fst).Nodup ∧ ∀ tp ∈ kv.2, tp.1 ≠ ""

instance (cat : Catalog) : Decidable (WFCatalog cat) := by
  unfold WFCatalog
  infer_instance

/-- All pools of the catalog contain only non-null entries with endpoints. -/
def WFPools (cat : Catalog) : Prop :=
  ∀ kv ∈ cat, ∀ tp ∈ kv.2, WFPool tp.2

instance (cat : Catalog) : Decidable (WFPools cat) := by
  unfold WFPools WFPool
  infer_instance

/-- The three caller-error conditions of the spec's failure semantics: empty
catalog, unknown caller-supplied country, or a resolved country record with
no populated type pool. -/
def failCond (d : Director) (sel : Selection) (rc : ℚ) : Prop :=
  d.catalog = [] ∨
  (∃ c, truthy sel.country = some c ∧ getProp d.catalog (jsToUpper c) = none) ∨
  (∃ cRec, getProp d.catalog (resolveCountry d sel.country rc) = some cRec ∧
    ∀ tp ∈ cRec, tp.2 = [])

theorem wpGo_some (entries : List (String × ℚ)) (r : ℚ) (x : String) :
    ∃ k, wpGo entries r (some x) = some k := by
  induction entries generalizing r with
  | nil => exact ⟨x, rfl⟩
  | cons hd tl ih =>
      obtain ⟨k0, w0⟩ := hd
      rw [wpGo]
      by_cases hc : r - max 0 w0 ≤ 0
      · rw [if_pos hc]
        exact ⟨k0, rfl⟩
      · rw [if_neg hc]
        exact ih _

theorem wpGo_mem {entries : List (String × ℚ)} {r : ℚ} {last : Option String}
    {k : String} (h : wpGo entries r last = some k) :
    k ∈ entries.map Prod.fst ∨ last = some k := by
  induction entries generalizing r with
  | nil => exact Or.inr h
  | cons hd tl ih =>
      obtain ⟨k0, w0⟩ := hd
      rw [wpGo] at h
      by_cases hc : r - max 0 w0 ≤ 0
      · rw [if_pos hc] at h
        cases h
        exact Or.inl (by simp)
      · rw [if_neg hc] at h
        rcases ih h with hmem | hlast
        · exact Or.inl (by simp [hmem])
        · exact Or.inr hlast

theorem weightedPick_mem {entries : List (String × ℚ)} {r : ℚ} {k : String}
    (_hne : entries ≠ []) (h : weightedPick entries r = some k) :
    k ∈ entries.map Prod.fst := by
  unfold weightedPick at h
  by_cases hc : (entries.map (fun e => max 0 e.2)).sum ≤ 0
  · rw [if_pos hc] at h
    obtain ⟨kv, hkv⟩ := Option.map_eq_some'.mp h
    exact hkv.2 ▸ List.mem_map.mpr ⟨kv, List.mem_of_mem_head? (by simp [hkv.1]), rfl⟩
  · rw [if_neg hc] at h
    rcases wpGo_mem h with hmem | hlast
    · exact hmem
    · obtain ⟨kv, hkv⟩ := Option.map_eq_some'.mp hlast
      exact hkv.2 ▸ List.mem_map.mpr ⟨kv, List.mem_of_mem_getLast? (by simp [hkv.1]), rfl⟩

/-- With a non-empty catalog and an in-range `Math.random()` draw,
`_pickCountry` returns one of the catalog's country keys. -/
theorem pickCountry_some_mem {d : Director} {rc : ℚ}
    (hne : d.catalog ≠ []) (hrc0 : 0 ≤ rc) (hrc1 : rc < 1) :
    ∃ k, pickCountry d rc = some k ∧ k ∈ d.catalog.map Prod.fst := by
  have hkeysne : d.catalog.map Prod.fst ≠ [] := by simpa using hne
  have hlen : 0 < (d.catalog.map Prod.fst).length :=
    List.length_pos.mpr hkeysne
  unfold pickCountry
  rw [if_neg (by simpa [List.isEmpty_iff] using hkeysne)]
  by_cases hz : ((d.catalog.map Prod.fst).map
      (fun c => (c, (getProp d.countryDistribution c).getD 0))).all (fun w => w.2 ≤ 0)
  · rw [if_pos hz]
    have hidx : randIndex rc (d.catalog.map Prod.fst).length
        < (d.catalog.map Prod.fst).length := randIndex_lt _ hrc0 hrc1 hlen
    refine ⟨(d.catalog.map Prod.fst).get ⟨_, hidx⟩, List.get?_eq_get hidx, ?_⟩
    exact List.get_mem _ _ _
  · rw [if_neg hz]
    have hene : (d.catalog.map Prod.fst).map
        (fun c => (c, (getProp d.countryDistribution c).getD 0)) ≠ [] := by
      simpa using hkeysne
    cases hwp : weightedPick ((d.catalog.map Prod.fst).map
        (fun c => (c, (getProp d.countryDistribution c).getD 0))) rc with
    | none =>
        exfalso
        unfold weightedPick at hwp
        by_cases hc : (((d.catalog.map Prod.fst).map
            (fun c => (c, (getProp d.countryDistribution c).getD 0))).map
              (fun e => max 0 e.2)).sum ≤ 0
        · rw [if_pos hc] at hwp
          rw [Option.map_eq_none', List.head?_eq_none_iff] at hwp
          exact hene hwp
        · rw [if_neg hc] at hwp
          obtain ⟨last, hlast⟩ : ∃ x, ((d.catalog.map Prod.fst).map
              (fun c => (c, (getProp d.countryDistribution c).getD 0))).getLast?
                = some x := by
            cases hgl : ((d.catalog.map Prod.fst).map
                (fun c => (c, (getProp d.countryDistribution c).getD 0))).getLast? with
            | none =>
                rw [List.getLast?_eq_none_iff] at hgl
                exact absurd hgl hene
            | some x => exact ⟨x, rfl⟩
          rw [hlast] at hwp
          obtain ⟨k, hk⟩ := wpGo_some _ _ last.1
          rw [Option.map_some'] at hwp
          rw [hk] at hwp
          simp at hwp
    | some k =>
        have hmem := weightedPick_mem hene hwp
        refine ⟨k, rfl, ?_⟩
        rw [List.map_map] at hmem
        simpa using hmem

/-- A caller-supplied (truthy) country short-circuits resolution: the
resolved country is its uppercasing. -/
theorem resolveCountry_of_some {d : Director} {selc : Option String} {c : String}
    (rc : ℚ) (h : truthy selc = some c) :
    resolveCountry d selc rc = jsToUpper c := by
  unfold resolveCountry
  rw [jsOrS_of_truthy h]
  rfl

/-- With no caller country and an empty catalog, resolution yields `""`. -/
theorem resolveCountry_nil {d : Director} {selc : Option String} (rc : ℚ)
    (h : truthy selc = none) (hcat : d.catalog = []) :
    resolveCountry d selc rc = "" := by
  have hpc : pickCountry d rc = none := by
    unfold pickCountry
    rw [hcat]
    rfl
  unfold resolveCountry
  rw [jsOrS_of_falsy _ h, hpc, jsOrS_of_falsy _ truthy_none, hcat]
  rfl

/-- With no caller country, a non-empty wellformed catalog and an in-range
draw, resolution lands on one of the catalog's country keys. -/
theorem resolveCountry_mem {d : Director} {selc : Option String} {rc : ℚ}
    (h : truthy selc = none) (hcat : d.catalog ≠ [])
    (hwf : WFCatalog d.catalog) (hrc0 : 0 ≤ rc) (hrc1 : rc < 1) :
    resolveCountry d selc rc ≠ "" ∧
    ∃ cRec, getProp d.catalog (resolveCountry d selc rc) = some cRec := by
  obtain ⟨k, hpc, hkmem⟩ := pickCountry_some_mem hcat hrc0 hrc1
  obtain ⟨kv, hkv, hk1⟩ := List.mem_map.mp hkmem
  have hwfkv := hwf.2 kv hkv
  have hkne : kv.1 ≠ "" := hwfkv.1
  have hkup : jsToUpper kv.1 = kv.1 := hwfkv.2.1
  have hres : resolveCountry d selc rc = kv.1 := by
    unfold resolveCountry
    rw [jsOrS_of_falsy _ h, hpc, ← hk1, jsOrS_of_truthy (truthy_some_of_ne hkne),
      Option.getD_some, hkup]
  rw [hres]
  exact ⟨hkne, getProp_isSome_of_mem_keys (List.mem_map.mpr ⟨kv, hkv, rfl⟩)⟩

/-- `firstAvailableType` returns `null` exactly on a record with no
populated pool (given non-empty type keys, as the data model prescribes). -/
theorem firstAvailableType_none_iff {cRec : CountryRec}
    (hkeys : ∀ tp ∈ cRec, tp.1 ≠ "") :
    firstAvailableType cRec = none ↔ ∀ tp ∈ cRec, tp.2 = [] := by
  constructor
  · intro h
    unfold firstAvailableType at h
    cases hfo : ["res_rotating", "res_static", "dc_rotating", "dc_static"].find?
        (fun t => ((getProp cRec t).getD []).length ≠ 0) with
    | some t => rw [hfo] at h; cases h
    | none =>
        rw [hfo] at h
        cases hf : cRec.find? (fun kv => kv.2.length ≠ 0) with
        | none =>
            intro tp htp
            have := List.find?_eq_none.mp hf tp htp
            simpa [List.length_eq_zero] using this
        | some kv =>
            rw [hf, Option.map_some'] at h
            have hkne := hkeys kv (List.mem_of_find?_eq_some hf)
            rw [truthy_some_of_ne hkne] at h
            cases h
  · intro h
    unfold firstAvailableType
    have hfo : ["res_rotating", "res_static", "dc_rotating", "dc_static"].find?
        (fun t => ((getProp cRec t).getD []).length ≠ 0) = none := by
      rw [List.find?_eq_none]
      intro t _
      cases hg : getProp cRec t with
      | none => simp [hg]
      | some p =>
          have hpnil : p = [] := h (t, p) (getProp_mem hg)
          simp [hg, hpnil]
    rw [hfo]
    have hf : cRec.find? (fun kv => kv.2.length ≠ 0) = none := by
      rw [List.find?_eq_none]
      intro kv hkv
      simp [h kv hkv]
    rw [hf]
    rfl

/-- Inversion of `firstAvailableType cRec = some t`: the returned type has a
populated pool, and it is either one of the four priority types or — when
none of the four is populated — the first populated key of the record. -/
theorem firstAvailableType_some {cRec : CountryRec} {t : String}
    (hnd : (cRec.map Prod.fst).Nodup)
    (h : firstAvailableType cRec = some t) :
    (getProp cRec t).getD [] ≠ [] ∧
    (t ∈ ["res_rotating", "res_static", "dc_rotating", "dc_static"] ∨
      ((∀ t' ∈ ["res_rotating", "res_static", "dc_rotating", "dc_static"],
          (getProp cRec t').getD [] = []) ∧ ∃ p, (t, p) ∈ cRec ∧ p ≠ [])) := by
  unfold firstAvailableType at h
  cases hfo : ["res_rotating", "res_static", "dc_rotating", "dc_static"].find?
      (fun t => ((getProp cRec t).getD []).length ≠ 0) with
  | some t0 =>
      rw [hfo] at h
      cases h
      have hp := List.find?_some hfo
      refine ⟨by simpa [List.length_eq_zero] using hp, Or.inl ?_⟩
      exact List.mem_of_find?_eq_some hfo
  | none =>
      rw [hfo] at h
      cases hf : cRec.find? (fun kv => kv.2.length ≠ 0) with
      | none => rw [hf] at h; cases h
      | some kv =>
          rw [hf, Option.map_some'] at h
          obtain ⟨heq, -⟩ := truthy_inv h
          have hkt : kv.1 = t := Option.some.inj heq
          have hmem := List.mem_of_find?_eq_some hf
          have hp : kv.2 ≠ [] := by
            simpa [List.length_eq_zero] using List.find?_some hf
          have hget : getProp cRec kv.1 = some kv.2 := getProp_of_mem hmem hnd
          refine ⟨by rw [← hkt, hget]; simpa using hp, Or.inr ⟨?_, kv.2, hkt ▸ hmem, hp⟩⟩
          intro t' ht'
          have := List.find?_eq_none.mp hfo t' ht'
          simpa [List.length_eq_zero] using this

/-- **C4** — Type fallback: (1) whenever a `pickProxy` call succeeds, the
type of the pick is the requested (or default) type if its pool under the
resolved country is non-empty, and otherwise the `firstAvailableType` of the
country record; (2) `firstAvailableType` yields a type with a populated
pool that is one of the four priority types `res_rotating, res_static,
dc_rotating, dc_static`, or — when none of the four is populated — the
first other populated type key of the record; (3) for a country populated
only under `dc_static`, requesting `res_rotating` succeeds (does not throw)
with a pick whose `type` equals `"dc_static"`. -/
theorem typeFallback_spec :
    (∀ (d : Director) (st : DirState) (sel : Selection) (rc ri : ℚ)
        (m : ProxyPickMeta) (st' : DirState) (cRec : CountryRec),
      pickProxy d st sel rc ri = (.ok m, st') →
      getProp d.catalog (resolveCountry d sel.country rc) = some cRec →
      ((getProp cRec ((truthy sel.type).getD d.defaultType)).getD [] ≠ [] →
        m.type = (truthy sel.type).getD d.defaultType) ∧
      ((getProp cRec ((truthy sel.type).getD d.defaultType)).getD [] = [] →
        firstAvailableType cRec = some m.type)) ∧
    (∀ (cRec : CountryRec) (t : String), (cRec.map Prod.fst).Nodup →
      firstAvailableType cRec = some t →
      (getProp cRec t).getD [] ≠ [] ∧
      (t ∈ ["res_rotating", "res_static", "dc_rotating", "dc_static"] ∨
        ((∀ t' ∈ ["res_rotating", "res_static", "dc_rotating", "dc_static"],
            (getProp cRec t').getD [] = []) ∧ ∃ p, (t, p) ∈ cRec ∧ p ≠ []))) ∧
    (∀ (pool : Pool) (st : DirState) (rc ri : ℚ), pool ≠ [] → WFPool pool →
      ∃ m st',
        pickProxy ⟨[("US", [("dc_static", pool)])], [], "res_rotating", "random"⟩
          st { country := some "US", type := some "res_rotating",
               strategy := some "roundRobin", sessionKey := none } rc ri
          = (.ok m, st') ∧
        m.type = "dc_static") := by
  refine ⟨?_, fun cRec t hnd h => firstAvailableType_some hnd h, ?_⟩
  · intro d st sel rc ri m st' cRec h hrec
    obtain ⟨cRec', pool, T, hC, hrec', hif, hpool, hfin⟩ := pickProxy_ok_inv h
    rw [hrec] at hrec'
    cases hrec'
    obtain ⟨e, ep, hget, hep, hst, hm⟩ := finishPick_ok hfin
    have hmT : m.type = T := by rw [hm]
    constructor
    · intro hne
      have hcond : ((getProp cRec ((truthy sel.type).getD d.defaultType)).getD []).length ≠ 0 := by
        simpa [List.length_eq_zero] using hne
      rw [if_pos hcond] at hif
      rw [hmT, Option.some.inj hif]
    · intro hnil
      have hcond : ¬ ((getProp cRec ((truthy sel.type).getD d.defaultType)).getD []).length ≠ 0 := by
        simp [hnil]
      rw [if_neg hcond] at hif
      rw [hmT]
      exact hif
  · intro pool st rc ri hne hwf
    have hres : resolveCountry
        (⟨[("US", [("dc_static", pool)])], [], "res_rotating", "random"⟩ : Director)
        (some "US") rc = "US" :=
      (resolveCountry_of_some rc (@truthy_some_of_ne "US" (by decide))).trans (by decide)
    have hrec : getProp ([("US", [("dc_static", pool)])] : Catalog) "US"
        = some [("dc_static", pool)] := by
      simp [getProp]
    have hfat : firstAvailableType [("dc_static", pool)] = some "dc_static" := by
      unfold firstAvailableType
      have hfind : (["res_rotating", "res_static", "dc_rotating", "dc_static"].find?
          (fun t => ((getProp [("dc_static", pool)] t).getD []).length ≠ 0))
          = some "dc_static" := by
        simp [getProp, List.length_eq_zero, hne]
      rw [hfind]
    have hpt : (if ((getProp [("dc_static", pool)]
            ((truthy (some "res_rotating")).getD "res_rotating")).getD []).length ≠ 0
        then some ((truthy (some "res_rotating")).getD "res_rotating")
        else firstAvailableType [("dc_static", pool)]) = some "dc_static" := by
      rw [truthy_some_of_ne (by decide), Option.getD_some]
      have : getProp [("dc_static", pool)] "res_rotating" = none := by
        simp [getProp]
      rw [this]
      simpa using hfat
    have hpool : (getProp [("dc_static", pool)] "dc_static").getD [] = pool := by
      simp [getProp]
    have hchar := @pickProxy_resolved
      ⟨[("US", [("dc_static", pool)])], [], "res_rotating", "random"⟩ st
      { country := some "US", type := some "res_rotating",
        strategy := some "roundRobin", sessionKey := none }
      rc ri "US" "dc_static" [("dc_static", pool)] pool
      hres (by decide) hrec hpt hpool hne
    have hlen : 0 < pool.length := List.length_pos.mpr hne
    have hidx : (((getProp st.rr ("US" ++ ":" ++ "dc_static")).getD 0) + 1) % pool.length
        < pool.length := Nat.mod_lt _ hlen
    obtain ⟨e, ep, hget, hep, hfin⟩ := finishPick_wf "US" "dc_static" "roundRobin"
      ((truthy (none : Option String)).getD "")
      (nextRR st ("US" ++ ":" ++ "dc_static") pool.length).2 hwf hidx
    have hcall : pickProxy
        (⟨[("US", [("dc_static", pool)])], [], "res_rotating", "random"⟩ : Director) st
        { country := some "US", type := some "res_rotating",
          strategy := some "roundRobin", sessionKey := none } rc ri =
        (.ok { proxyConfig := applySessionToken ep ((truthy (none : Option String)).getD "")
               country := "US", type := "dc_static", strategy := "roundRobin"
               provider := e.provider, notes := e.notes },
         (nextRR st ("US" ++ ":" ++ "dc_static") pool.length).2) := by
      rw [hchar]
      have hstrat : (truthy (some "roundRobin")).getD "random" = "roundRobin" := by
        rw [truthy_some_of_ne (by decide)]
        rfl
      rw [hstrat, chooseIndex_roundRobin]
      rw [show nextRR st ("US" ++ ":" ++ "dc_static") pool.length =
        ((((getProp st.rr ("US" ++ ":" ++ "dc_static")).getD 0) + 1) % pool.length,
          (nextRR st ("US" ++ ":" ++ "dc_static") pool.length).2) from rfl]
      exact hfin
    exact ⟨_, _, hcall, rfl⟩

/-- Witness for C4: the `dc_static`-only clause at a concrete one-entry
pool. -/
theorem typeFallback_spec_witness :
    ∃ m st',
      pickProxy ⟨[("US", [("dc_static", [some entA])])], [], "res_rotating", "random"⟩
        st0 { country := some "US", type := some "res_rotating",
              strategy := some "roundRobin", sessionKey := none } 0 0 = (.ok m, st') ∧
      m.type = "dc_static" :=
  typeFallback_spec.2.2 [some entA] st0 0 0 (by decide) (by decide)

/-! ### Shape of the returned proxyConfig -/

/-- An endpoint carrying the builder-derived `auth` string. -/
def epAuth : ProxyConfig :=
  { protocol := "http", host := "h1", port := 80,
    username := some "u", password := some "p", auth := some "u:p" }

def entAuth : ProviderEntry := { provider := some "P", endpoint := some epAuth }

def dAuth : Director := { catalog := [("US", [("res_rotating", [some entAuth])])] }

/-- `selRR` with a session key attached. -/
def selRRK : Selection :=
  { country := some "US", type := some "res_rotating",
    strategy := some "roundRobin", sessionKey := some "42" }

/-- **C8 counterexample** — with no `sessionKey`, `applySessionToken`
returns the JS shallow copy `{ ...cfg }`, which retains the stored
builder-derived `auth` field: picking from a catalog entry whose endpoint
carries `auth` yields a `proxyConfig` whose `auth` field is present
(`"u:p"`), not the claimed exact
`protocol/host/port/username?/password?` shape. -/
theorem proxyConfig_shape_counterexample :
    (resultMeta (pickProxy dAuth st0 selRR 0 0)).map (fun m => m.proxyConfig.auth)
      = some (some "u:p") := by
  decide

/-- **C8 (amended)** — Returned proxyConfig field shape: every successful
`pickProxy` call returns as `proxyConfig` the session expansion of the
endpoint stored at the picked slot of the resolved country/type pool.  When
a non-empty `sessionKey` is supplied that expansion is rebuilt from exactly
`protocol`, `host`, `port`, `username?` and `password?` — its `auth` field
is absent; when the `sessionKey` is absent or empty, the `proxyConfig` is
the shallow copy of that stored endpoint itself, and so additionally
carries the stored endpoint's `auth` field when that is present. -/
theorem proxyConfig_shape
    (d : Director) (st : DirState) (sel : Selection) (rc ri : ℚ)
    (m : ProxyPickMeta) (st' : DirState)
    (h : pickProxy d st sel rc ri = (.ok m, st')) :
    ∃ cRec T pool, ∃ (e : ProviderEntry) (ep : ProxyConfig),
      getProp d.catalog (resolveCountry d sel.country rc) = some cRec ∧
      (getProp cRec T).getD [] = pool ∧
      pool.get? (chooseIndex st ((truthy sel.strategy).getD d.defaultStrategy)
        (resolveCountry d sel.country rc) T sel.sessionKey ri pool.length).1
        = some (some e) ∧
      e.endpoint = some ep ∧
      m.proxyConfig = applySessionToken ep ((truthy sel.sessionKey).getD "") ∧
      (∀ s, truthy sel.sessionKey = some s → m.proxyConfig.auth = none) ∧
      (truthy sel.sessionKey = none → m.proxyConfig = ep) := by
  obtain ⟨cRec, pool, T, hC, hrec, hif, hpool, hfin⟩ := pickProxy_ok_inv h
  obtain ⟨e, ep, hget, hep, hst, hm⟩ := finishPick_ok hfin
  refine ⟨cRec, T, pool, e, ep, hrec, hpool, hget, hep, by rw [hm], ?_, ?_⟩
  · intro s hs
    obtain ⟨-, hsne⟩ := truthy_inv hs
    rw [hm]
    simp [hs, applySessionToken, hsne]
  · intro hnone
    rw [hm]
    simp [hnone, applySessionToken]

instance {ε α : Type} [DecidableEq ε] [DecidableEq α] : DecidableEq (Except ε α) :=
  fun a b =>
    match a, b with
    | .error e1, .error e2 =>
        if h : e1 = e2 then isTrue (by rw [h])
        else isFalse (by intro hc; cases hc; exact h rfl)
    | .error _, .ok _ => isFalse (by intro hc; cases hc)
    | .ok _, .error _ => isFalse (by intro hc; cases hc)
    | .ok a1, .ok a2 =>
        if h : a1 = a2 then isTrue (by rw [h])
        else isFalse (by intro hc; cases hc; exact h rfl)

/-- The proxyConfig of the meta returned by `pickProxy dAuth st0 selRRK 0 0`. -/
def mWcfg : ProxyConfig :=
  { protocol := "http", host := "h1", port := 80,
    username := some "u", password := some "p", auth := none }

/-- The concrete meta returned by `pickProxy dAuth st0 selRRK 0 0`. -/
def mW : ProxyPickMeta :=
  { proxyConfig := mWcfg, country := "US", type := "res_rotating",
    strategy := "roundRobin", provider := some "P", notes := none }

/-- The concrete state after that call. -/
def stW : DirState := ⟨[("US:res_rotating", 0)], []⟩

/-- Witness for the amended C8: the shape theorem at a concrete call with a
non-empty `sessionKey` whose stored endpoint carries `auth` — the returned
config is the expansion of the slot's endpoint and its `auth` is `none`. -/
theorem proxyConfig_shape_witness :
    ∃ cRec T pool, ∃ (e : ProviderEntry) (ep : ProxyConfig),
      getProp dAuth.catalog (resolveCountry dAuth selRRK.country 0) = some cRec ∧
      (getProp cRec T).getD [] = pool ∧
      pool.get? (chooseIndex st0 ((truthy selRRK.strategy).getD dAuth.defaultStrategy)
        (resolveCountry dAuth selRRK.country 0) T selRRK.sessionKey 0 pool.length).1
        = some (some e) ∧
      e.endpoint = some ep ∧
      mW.proxyConfig = applySessionToken ep ((truthy selRRK.sessionKey).getD "") ∧
      (∀ s, truthy selRRK.sessionKey = some s → mW.proxyConfig.auth = none) ∧
      (truthy selRRK.sessionKey = none → mW.proxyConfig = ep) :=
  proxyConfig_shape dAuth st0 selRRK 0 0 mW stW (by decide)

/-- A `poolType` produced by the type-resolution `if` has a populated pool
(given unique type keys). -/
theorem poolType_pool_ne {cRec : CountryRec} {dt T : String}
    (hnd : (cRec.map Prod.fst).Nodup)
    (hpt : (if ((getProp cRec dt).getD []).length ≠ 0
            then some dt else firstAvailableType cRec) = some T) :
    (getProp cRec T).getD [] ≠ [] := by
  by_cases hcnd : ((getProp cRec dt).getD []).length ≠ 0
  · rw [if_pos hcnd] at hpt
    cases hpt
    simpa [List.length_eq_zero] using hcnd
  · rw [if_neg hcnd] at hpt
    exact (firstAvailableType_some hnd hpt).1

/-- **C7** — Selection failure semantics: over a wellformed catalog (unique
non-empty uppercased country keys, unique non-empty type keys) whose pool
slots are all non-null entries carrying an endpoint, and with the
`Math.random()` draws in their guaranteed `[0,1)` range, `pickProxy` throws
exactly when the catalog has no countries, or the caller-supplied country
(uppercased) has no catalog record, or the resolved country's record has no
non-empty type pool; and on every throw the director's round-robin and
sticky state is returned unchanged (all throws occur before any state
mutation). -/
theorem pickProxy_failure_semantics
    (d : Director) (st : DirState) (sel : Selection) (rc ri : ℚ)
    (hwf : WFCatalog d.catalog) (hp : WFPools d.catalog)
    (hrc0 : 0 ≤ rc) (hrc1 : rc < 1) (hri0 : 0 ≤ ri) (hri1 : ri < 1) :
    ((∃ e, (pickProxy d st sel rc ri).1 = .error e) ↔ failCond d sel rc) ∧
    ((∃ e, (pickProxy d st sel rc ri).1 = .error e) →
      (pickProxy d st sel rc ri).2 = st) := by
  by_cases hc1 : resolveCountry d sel.country rc = ""
  · have hrun : pickProxy d st sel rc ri =
        (.error "ProxyDirector.pickProxy: no countries available in catalog.", st) := by
      unfold pickProxy
      rw [if_pos hc1]
    refine ⟨⟨fun _ => ?_, fun _ => ⟨_, by rw [hrun]⟩⟩, fun _ => by rw [hrun]⟩
    cases hsc : truthy sel.country with
    | some c =>
        refine Or.inr (Or.inl ⟨c, hsc, ?_⟩)
        have hup : jsToUpper c = "" := by
          rw [← resolveCountry_of_some rc hsc]
          exact hc1
        rw [hup]
        cases hg : getProp d.catalog "" with
        | none => rfl
        | some v => exact absurd rfl ((hwf.2 _ (getProp_mem hg)).1)
    | none =>
        by_cases hcat : d.catalog = []
        · exact Or.inl hcat
        · exact absurd hc1 (resolveCountry_mem hsc hcat hwf hrc0 hrc1).1
  · cases hrec : getProp d.catalog (resolveCountry d sel.country rc) with
    | none =>
        have hrun : pickProxy d st sel rc ri =
            (.error "ProxyDirector.pickProxy: no countries available in catalog.", st) := by
          unfold pickProxy
          rw [if_neg hc1, hrec]
        refine ⟨⟨fun _ => ?_, fun _ => ⟨_, by rw [hrun]⟩⟩, fun _ => by rw [hrun]⟩
        cases hsc : truthy sel.country with
        | some c =>
            refine Or.inr (Or.inl ⟨c, hsc, ?_⟩)
            rw [← resolveCountry_of_some rc hsc]
            exact hrec
        | none =>
            by_cases hcat : d.catalog = []
            · exact Or.inl hcat
            · obtain ⟨-, cRec, hsome⟩ := resolveCountry_mem hsc hcat hwf hrc0 hrc1
              rw [hrec] at hsome
              cases hsome
    | some cRec =>
        have hmem : (resolveCountry d sel.country rc, cRec) ∈ d.catalog :=
          getProp_mem hrec
        have hwfc := hwf.2 _ hmem
        cases hpt : (if ((getProp cRec
            ((truthy sel.type).getD d.defaultType)).getD []).length ≠ 0
            then some ((truthy sel.type).getD d.defaultType)
            else firstAvailableType cRec) with
        | none =>
            have hrun : pickProxy d st sel rc ri =
                (.error "ProxyDirector.pickProxy: no proxy types present.", st) := by
              unfold pickProxy
              rw [if_neg hc1, hrec]
              simp only []
              rw [hpt]
            have hfat : firstAvailableType cRec = none := by
              by_cases hcnd : ((getProp cRec
                  ((truthy sel.type).getD d.defaultType)).getD []).length ≠ 0
              · rw [if_pos hcnd] at hpt
                cases hpt
              · rw [if_neg hcnd] at hpt
                exact hpt
            have hall : ∀ tp ∈ cRec, tp.2 = [] :=
              (firstAvailableType_none_iff hwfc.2.2.2).mp hfat
            exact ⟨⟨fun _ => Or.inr (Or.inr ⟨cRec, hrec, hall⟩),
              fun _ => ⟨_, by rw [hrun]⟩⟩, fun _ => by rw [hrun]⟩
        | some T =>
            have hTpool : (getProp cRec T).getD [] ≠ [] :=
              poolType_pool_ne hwfc.2.2.1 hpt
            obtain ⟨poolT, hpoolT⟩ : ∃ p, getProp cRec T = some p := by
              cases hg : getProp cRec T with
              | none => exact absurd (by rw [hg]; rfl) hTpool
              | some p => exact ⟨p, rfl⟩
            have hpoolwf : WFPool ((getProp cRec T).getD []) := by
              rw [hpoolT]
              exact hp _ hmem _ (getProp_mem hpoolT)
            have hchar := @pickProxy_resolved d st sel rc ri
              (resolveCountry d sel.country rc) T cRec ((getProp cRec T).getD [])
              rfl hc1 hrec hpt rfl hTpool
            have hlen : 0 < ((getProp cRec T).getD []).length :=
              List.length_pos.mpr hTpool
            have hidx := chooseIndex_fst_lt st ((truthy sel.strategy).getD d.defaultStrategy)
              (resolveCountry d sel.country rc) T sel.sessionKey
              ((getProp cRec T).getD []).length hri0 hri1 hlen
            obtain ⟨e, ep, hget, hep, hfin⟩ := finishPick_wf
              (resolveCountry d sel.country rc) T
              ((truthy sel.strategy).getD d.defaultStrategy)
              ((truthy sel.sessionKey).getD "")
              (chooseIndex st ((truthy sel.strategy).getD d.defaultStrategy)
                (resolveCountry d sel.country rc) T sel.sessionKey ri
                ((getProp cRec T).getD []).length).2 hpoolwf hidx
            have hrun : (pickProxy d st sel rc ri).1 = .ok
                { proxyConfig := applySessionToken ep ((truthy sel.sessionKey).getD "")
                  country := resolveCountry d sel.country rc, type := T
                  strategy := (truthy sel.strategy).getD d.defaultStrategy
                  provider := e.provider, notes := e.notes } := by
              rw [hchar]
              rw [show (chooseIndex st ((truthy sel.strategy).getD d.defaultStrategy)
                  (resolveCountry d sel.country rc) T sel.sessionKey ri
                  ((getProp cRec T).getD []).length) =
                ((chooseIndex st ((truthy sel.strategy).getD d.defaultStrategy)
                  (resolveCountry d sel.country rc) T sel.sessionKey ri
                  ((getProp cRec T).getD []).length).1,
                 (chooseIndex st ((truthy sel.strategy).getD d.defaultStrategy)
                  (resolveCountry d sel.country rc) T sel.sessionKey ri
                  ((getProp cRec T).getD []).length).2) from rfl, hfin]
            have hnofail : ¬ failCond d sel rc := by
              rintro (hcat | ⟨c, hsc, hnone⟩ | ⟨cRec', hsome, hall⟩)
              · rw [hcat] at hrec
                cases hrec
              · rw [← resolveCountry_of_some rc hsc, hrec] at hnone
                cases hnone
              · rw [hrec] at hsome
                cases hsome
                exact hTpool (by
                  rw [hpoolT]
                  exact hall (T, poolT) (getProp_mem hpoolT))
            refine ⟨⟨fun ⟨e', he'⟩ => ?_, fun hf => absurd hf hnofail⟩,
              fun ⟨e', he'⟩ => ?_⟩
            · rw [hrun] at he'
              cases he'
            · rw [hrun] at he'
              cases he'

/-- Witness for C7: the failure-semantics equivalence at the spec's own
example — a director over the empty catalog, with an all-default selection. -/
theorem pickProxy_failure_semantics_witness :
    ((∃ e, (pickProxy ⟨[], [], "res_rotating", "random"⟩ st0 {} 0 0).1 = .error e) ↔
      failCond ⟨[], [], "res_rotating", "random"⟩ {} 0) ∧
    ((∃ e, (pickProxy ⟨[], [], "res_rotating", "random"⟩ st0 {} 0 0).1 = .error e) →
      (pickProxy ⟨[], [], "res_rotating", "random"⟩ st0 {} 0 0).2 = st0) :=
  pickProxy_failure_semantics ⟨[], [], "res_rotating", "random"⟩ st0 {} 0 0
    (by decide) (by decide) (by decide) (by decide) (by decide) (by decide)

end ProxyPool
